import Mathlib

/-!
# porkctl: a verification development

A shallow embedding of `main.go` of porkctl (a command-line client for the
Porkbun registrar API) and theorems about its response normaliser, its
credential parser and its command handlers.

Conventions of the embedding.

* A Go `string` is a Lean `String`; `len(s)` is `String.utf8ByteSize`.
* A Go `map[string]any` is an association list (`JObj`); indexing returns the
  first binding of the key. A list whose keys are pairwise distinct is a Go
  map, and the order of the list is the order in which `range` happens to
  visit the map.
* A Go `float64` is a value of `F64` (sign, mantissa, binary exponent, or an
  infinity, or NaN); its arithmetic is IEEE 754 binary64 with round-to-nearest,
  ties-to-even, computed on integers.
* Functions of the Go standard library whose text is not part of the
  repository (`strings.EqualFold`, `strconv.FormatFloat`, `strconv.ParseFloat`,
  `sort.Slice`, `filepath.Join`, the verb `%q`) and the two choices Go leaves
  to the implementation (fusing `x*y + z`, converting an out-of-range float to
  `int64`) are fields of the structure `Std`; every theorem holds for every
  value of those fields, under the stated hypotheses.
* Network and file-system effects are explicit arguments: the outcome of an
  `apiPost` call is an `Except String JObj`, the file system is a function
  from paths to readable contents.
-/

namespace Porkctl

/-! ## Data model -/

/-- A `float64` value: NaN, an infinity, or the finite number
`(-1)^neg * mant * 2^exp`. -/
inductive F64 where
  | nan
  | inf (neg : Bool)
  | fin (neg : Bool) (mant : Nat) (exp : Int)
  deriving DecidableEq, Repr

/-- A dynamically typed Go value (`any`) as the program meets it: the six shapes
`encoding/json` decodes into, and `int` for the `int`/`int64` cases of the type
switches. -/
inductive JVal where
  | null
  | bool (b : Bool)
  | num (x : F64)
  | int (i : Int)
  | str (s : String)
  | arr (xs : List JVal)
  | obj (kvs : List (String × JVal))

/-- A Go `map[string]any`. -/
abbrev JObj := List (String × JVal)

/-- The comma-ok form `v, ok := m[k]`. -/
def lookup (m : JObj) (k : String) : Option JVal :=
  List.lookup k m

/-- The plain index expression `m[k]`: the zero value `nil` when `k` is absent. -/
def index (m : JObj) (k : String) : JVal :=
  (lookup m k).getD JVal.null

/-- The Go standard library functions the program calls and whose text is not
in the repository. -/
structure Std where
  /-- Models `strings.EqualFold`. -/
  equalFold : String → String → Bool
  /-- Models `strconv.FormatFloat(x, 'f', -1, 64)`. -/
  formatFloat : F64 → String
  /-- Models `strconv.ParseFloat(s, 64)`: the value returned and whether `err == nil`. -/
  parseFloat : String → F64 × Bool
  /-- Models `sort.Slice` on the slice and its `less` function, as a function of
  the elements. -/
  sortSlice : {α : Type} → (α → α → Bool) → List α → List α
  /-- Models `filepath.Join`. -/
  pathJoin : List String → String
  /-- The result of converting to `int64` a float that is NaN or outside the
  `int64` range (implementation-specific in Go). -/
  int64OutOfRange : F64 → Int
  /-- Whether the compiler fuses `x*y + z` into one rounding, which the Go
  specification allows (it does on arm64, not on amd64). -/
  fusesMulAdd : Bool
  /-- Models the verb `%q` of `fmt` on a string (`strconv.Quote`). -/
  quote : String → String

/-! ## Field coercions (`asMap`, `asString`) -/

/-- Embeds `asMap`: `some m` when the value is a map, `none` for `ok = false`. -/
def asMap (v : JVal) : Option JObj :=
  match v with
  | JVal.obj m => some m
  | _ => none

/-- Embeds `asString`. -/
def asString (L : Std) (v : JVal) : String :=
  match v with
  | JVal.str vv => vv
  | JVal.num vv => L.formatFloat vv
  | JVal.int vv => toString vv
  | JVal.bool vv => if vv then "true" else "false"
  | _ => ""

/-! ## The response normaliser -/

/-- The field-lookup scope of `parseCheckResponse`: `data["response"]` when it
is a map, `data` otherwise. -/
def responseScope (data : JObj) : JObj :=
  match asMap (index data "response") with
  | some r => r
  | none => data

/-- The `avail` computation of `parseCheckResponse` before the status gate. -/
def availField (L : Std) (response : JObj) : Bool :=
  match lookup response "avail" with
  | some (JVal.bool vv) => vv
  | some (JVal.str vv) => L.equalFold vv "yes" || L.equalFold vv "true"
  | _ => false

/-- The register price of `parseCheckResponse`. -/
def registerPrice (L : Std) (response : JObj) : String :=
  let p := asString L (index response "price")
  if p ≠ "" then p
  else
    match asMap (index response "pricing") with
    | some pr =>
      let p := asString L (index pr "registration")
      if p ≠ "" then p else "-"
    | none => "-"

/-- The first renewal lookup of `parseCheckResponse`: `additional.renewal.price`. -/
def renewalFromAdditional (L : Std) (response : JObj) : String :=
  match asMap (index response "additional") with
  | some add =>
    match asMap (index add "renewal") with
    | some ren =>
      let p := asString L (index ren "price")
      if p ≠ "" then p else "-"
    | none => "-"
  | none => "-"

/-- The renewal price of `parseCheckResponse`. -/
def renewalPrice (L : Std) (response : JObj) : String :=
  let renewal := renewalFromAdditional L response
  if renewal = "-" then
    match asMap (index response "pricing") with
    | some pr =>
      let p := asString L (index pr "renewal")
      if p ≠ "" then p else renewal
    | none => renewal
  else renewal

/-- Embeds `parseCheckResponse`: `(avail, price, renewal)`. -/
def parseCheckResponse (L : Std) (data : JObj) : Bool × String × String :=
  let response := responseScope data
  let statusOK := L.equalFold (asString L (index data "status")) "SUCCESS"
  let avail := availField L response
  let avail := statusOK && avail
  (avail, registerPrice L response, renewalPrice L response)

/-! ## String helpers of the Go standard library used by `parseEnv`

These are modelled on lists of characters; a Go string that is valid UTF-8 is
the list of its runes. -/

/-- Models `unicode.IsSpace`, the set `strings.TrimSpace` trims. -/
def isSpace (c : Char) : Bool :=
  let n := c.toNat
  (9 ≤ n && n ≤ 13) || n = 32 || n = 0x85 || n = 0xA0 || n = 0x1680 ||
    (0x2000 ≤ n && n ≤ 0x200A) || n = 0x2028 || n = 0x2029 || n = 0x202F ||
    n = 0x205F || n = 0x3000

/-- Models `strings.TrimSpace`. -/
def trimSpace (s : List Char) : List Char :=
  (s.dropWhile isSpace).rdropWhile isSpace

/-- Models `strings.Trim(s, "\"")`. -/
def trimQuotes (s : List Char) : List Char :=
  (s.dropWhile (fun c => c == '"')).rdropWhile (fun c => c == '"')

/-- Models `strings.Split(s, "\n")`. -/
def splitLines : List Char → List (List Char)
  | [] => [[]]
  | c :: cs =>
    if c = '\n' then [] :: splitLines cs
    else
      match splitLines cs with
      | [] => [[c]]
      | l :: ls => (c :: l) :: ls

/-- Models `strings.HasPrefix(s, "#")`. -/
def hasHashPrefix (s : List Char) : Bool :=
  match s with
  | c :: _ => c == '#'
  | [] => false

/-- Models `strings.Index(s, "=")`: the position of the first `=`, `none` for `-1`. -/
def indexEq : List Char → Option Nat
  | [] => none
  | c :: cs => if c = '=' then some 0 else (indexEq cs).map (· + 1)

/-! ## Credential parsing and loading -/

/-- A Go `map[string]string`: the newest binding of a key is the first in the list. -/
abbrev EnvMap := List (String × String)

/-- The index expression `vals[k]` on a `map[string]string` (zero value `""`). -/
def EnvMap.at (m : EnvMap) (k : String) : String :=
  (List.lookup k m).getD ""

/-- One iteration of the loop of `parseEnv`: the map after the line. -/
def parseEnvLine (out : EnvMap) (line : List Char) : EnvMap :=
  let trimmed := trimSpace line
  if trimmed = [] || hasHashPrefix trimmed then out
  else
    match indexEq trimmed with
    | none => out
    | some eq =>
      let key := trimSpace (trimmed.take eq)
      let val := trimSpace (trimmed.drop (eq + 1))
      (String.mk key, String.mk (trimQuotes val)) :: out

/-- Embeds `parseEnv`. -/
def parseEnv (content : String) : EnvMap :=
  (splitLines content.data).foldl parseEnvLine []

/-- The struct `apiKeys`. -/
structure apiKeys where
  APIKey : String
  SecretKey : String
  deriving DecidableEq, Repr

/-- The candidate paths of `loadKeys`, in order. -/
def candidates (L : Std) (getenv : String → String) : List String :=
  let p := String.mk (trimSpace (getenv "PORKCTL_ENV_FILE").data)
  (if p ≠ "" then [p] else []) ++
    [L.pathJoin ["C:", "dev", "_env", "secrets", "porkbun.env"],
     L.pathJoin [".", "porkbun.env"],
     L.pathJoin [".", ".env"],
     L.pathJoin ["C:", "dev", "_skills", "porkbun", ".env"]]

/-- The candidate loop of `loadKeys`: the first candidate that `os.Stat` finds
and `os.ReadFile` reads, with its content. -/
def firstReadable (fs : String → Option String) : List String → Option (String × String)
  | [] => none
  | c :: cs =>
    match fs c with
    | some b => some (b, c)
    | none => firstReadable fs cs

/-- Embeds `loadKeys`. `getenv` is the process environment (`os.Getenv`, `""`
for an unset variable); `fs p` is the content of the file at `p` when it exists
and can be read. -/
def loadKeys (L : Std) (getenv : String → String) (fs : String → Option String) :
    Except String apiKeys :=
  let found := firstReadable fs (candidates L getenv)
  let content := match found with
    | some (b, _) => b
    | none => ""
  let chosen := match found with
    | some (_, c) => c
    | none => ""
  if content.utf8ByteSize = 0 then
    Except.error "no env file found; set PORKCTL_ENV_FILE or create C:/dev/_env/secrets/porkbun.env"
  else
    let vals := parseEnv content
    let apiKey := vals.at "PORKBUN_API_KEY"
    let secretKey := vals.at "PORKBUN_SECRET_KEY"
    if apiKey = "" || secretKey = "" then
      Except.error ("missing PORKBUN_API_KEY or PORKBUN_SECRET_KEY in " ++ chosen)
    else
      Except.ok { APIKey := apiKey, SecretKey := secretKey }

/-! ## `float64` arithmetic

IEEE 754 binary64 with round-to-nearest, ties-to-even, computed on integers. -/

/-- The number of binary digits of `n`, computed with fuel `f`. -/
def bitLengthAux : Nat → Nat → Nat
  | 0, _ => 0
  | f + 1, n => if n = 0 then 0 else bitLengthAux f (n / 2) + 1

/-- The number of binary digits of `n` (`0` for `0`). -/
def bitLength (n : Nat) : Nat :=
  bitLengthAux n n

/-- Rounds the exact number `(-1)^neg * m * 2^e` to the nearest `float64`, ties
to even: 53 bits of mantissa, exponent of the last bit between `-1074` and
`971`, overflow to an infinity. -/
def F64.round (neg : Bool) (m : Nat) (e : Int) : F64 :=
  if m = 0 then F64.fin neg 0 0
  else
    let e1 : Int := max (e + (bitLength m : Int) - 53) (-1074)
    if e1 ≤ e then
      if e1 > 971 then F64.inf neg else F64.fin neg (m * 2 ^ (e - e1).toNat) e1
    else
      let sh := (e1 - e).toNat
      let q := m / 2 ^ sh
      let r := m % 2 ^ sh
      let half := 2 ^ (sh - 1)
      let q1 := if r > half ∨ (r = half ∧ q % 2 = 1) then q + 1 else q
      let q2 := if q1 = 2 ^ 53 then 2 ^ 52 else q1
      let e2 := if q1 = 2 ^ 53 then e1 + 1 else e1
      if e2 > 971 then F64.inf neg else F64.fin neg q2 e2

/-- The signed mantissa of a finite float. -/
def F64.signed (neg : Bool) (m : Nat) : Int :=
  if neg then -(m : Int) else (m : Int)

/-- The `float64` comparison `x < y`. -/
def F64.lt (x y : F64) : Bool :=
  match x, y with
  | F64.nan, _ => false
  | _, F64.nan => false
  | F64.inf n1, F64.inf n2 => n1 && !n2
  | F64.inf n1, F64.fin _ _ _ => n1
  | F64.fin _ _ _, F64.inf n2 => !n2
  | F64.fin n1 m1 e1, F64.fin n2 m2 e2 =>
    let e := min e1 e2
    decide (F64.signed n1 m1 * 2 ^ (e1 - e).toNat < F64.signed n2 m2 * 2 ^ (e2 - e).toNat)

/-- The correctly rounded sum of the exact numbers `(-1)^n1 * m1 * 2^e1` and
`(-1)^n2 * m2 * 2^e2`; an exact zero sum is `-0` only when both are negative. -/
def F64.sumExact (n1 : Bool) (m1 : Nat) (e1 : Int) (n2 : Bool) (m2 : Nat) (e2 : Int) : F64 :=
  let e := min e1 e2
  let s : Int := F64.signed n1 m1 * 2 ^ (e1 - e).toNat + F64.signed n2 m2 * 2 ^ (e2 - e).toNat
  if s = 0 then F64.fin (n1 && n2) 0 0
  else F64.round (decide (s < 0)) s.natAbs e

/-- The `float64` product `x * y`. -/
def F64.mul (x y : F64) : F64 :=
  match x, y with
  | F64.nan, _ => F64.nan
  | _, F64.nan => F64.nan
  | F64.inf n1, F64.inf n2 => F64.inf (xor n1 n2)
  | F64.inf n1, F64.fin n2 m2 _ => if m2 = 0 then F64.nan else F64.inf (xor n1 n2)
  | F64.fin n1 m1 _, F64.inf n2 => if m1 = 0 then F64.nan else F64.inf (xor n1 n2)
  | F64.fin n1 m1 e1, F64.fin n2 m2 e2 => F64.round (xor n1 n2) (m1 * m2) (e1 + e2)

/-- The `float64` sum `x + y`. -/
def F64.add (x y : F64) : F64 :=
  match x, y with
  | F64.nan, _ => F64.nan
  | _, F64.nan => F64.nan
  | F64.inf n1, F64.inf n2 => if n1 = n2 then F64.inf n1 else F64.nan
  | F64.inf n1, F64.fin _ _ _ => F64.inf n1
  | F64.fin _ _ _, F64.inf n2 => F64.inf n2
  | F64.fin n1 m1 e1, F64.fin n2 m2 e2 => F64.sumExact n1 m1 e1 n2 m2 e2

/-- The fused multiply-add `x * y + z`, rounded once. -/
def F64.fma (x y z : F64) : F64 :=
  match x, y, z with
  | F64.fin n1 m1 e1, F64.fin n2 m2 e2, F64.fin n3 m3 e3 =>
    F64.sumExact (xor n1 n2) (m1 * m2) (e1 + e2) n3 m3 e3
  | _, _, _ => F64.add (F64.mul x y) z

/-- The conversion `float64(i)` of an integer. -/
def F64.ofInt (i : Int) : F64 :=
  F64.round (decide (i < 0)) i.natAbs 0

/-- The `float64` nearest to the decimal `(-1)^neg * n / 10^k`, ties to even: the
value `strconv.ParseFloat` documents for a decimal numeral in range. The
quotient is taken with at least 60 bits and a sticky last bit, then rounded. -/
def F64.ofDecimal (neg : Bool) (n k : Nat) : F64 :=
  let den := 10 ^ k
  let t := 60 + bitLength den
  let q := n * 2 ^ t / den
  let sticky := if n * 2 ^ t % den = 0 then 0 else 1
  F64.round neg (2 * q + sticky) (-((t + 1 : Nat) : Int))

/-- The conversion `int64(x)`: truncation toward zero. -/
def F64.toInt64 (L : Std) (x : F64) : Int :=
  match x with
  | F64.fin neg m e =>
    let t : Int := F64.signed neg (if 0 ≤ e then m * 2 ^ e.toNat else m / 2 ^ (-e).toNat)
    if -2 ^ 63 ≤ t ∧ t < 2 ^ 63 then t else L.int64OutOfRange x
  | _ => L.int64OutOfRange x

/-- The expression `x*y + z` as compiled: fused or not. -/
def mulAdd (L : Std) (x y z : F64) : F64 :=
  if L.fusesMulAdd then F64.fma x y z else F64.add (F64.mul x y) z

/-- Embeds `asFloat`: `none` for `ok = false`. -/
def asFloat (L : Std) (v : JVal) : Option F64 :=
  match v with
  | JVal.num vv => some vv
  | JVal.int vv => some (F64.ofInt vv)
  | JVal.str vv => if (L.parseFloat vv).2 then some (L.parseFloat vv).1 else none
  | _ => none

/-- Embeds `fallback`. -/
def fallback (v d : String) : String :=
  if trimSpace v.data = [] then d else v

/-! ## Command handlers

A handler returns what it printed (one string per line), the `apiPost` calls it
made, and the error it returned (`none` for `nil`). The two tables
(`check-bulk`, `pricing`) are returned as their rows, in the order printed. -/

/-- Tail of `main`: prints `ERROR: <message>` and exits 1 when the handler
returned an error; the result is the whole output and the exit status. -/
def mainExit (out : List String) (err : Option String) : List String × Nat :=
  match err with
  | some e => (out ++ ["ERROR: " ++ e], 1)
  | none => (out, 0)

/-- Embeds `runCheck`; `res` is the outcome of its `apiPost` call. -/
def runCheck (L : Std) (domain : String) (res : Except String JObj) :
    List String × Option String :=
  match res with
  | Except.error err => (["DOMAIN: " ++ domain, "ERROR: " ++ err], none)
  | Except.ok data =>
    let (avail, price, renewal) := parseCheckResponse L data
    let msg := asString L (index data "message")
    (["DOMAIN: " ++ domain] ++
      [if avail then "AVAILABLE: yes" else "AVAILABLE: no"] ++
      (if price ≠ "-" then ["REGISTER_PRICE: " ++ price] else []) ++
      (if renewal ≠ "-" then ["RENEWAL_PRICE: " ++ renewal] else []) ++
      (if msg ≠ "" && !avail then ["MESSAGE: " ++ msg] else []), none)

/-- The command `porkctl check <domain>`: `runCheck` followed by the tail of `main`. -/
def mainCheck (L : Std) (domain : String) (res : Except String JObj) : List String × Nat :=
  mainExit (runCheck L domain res).1 (runCheck L domain res).2

/-- The struct `bulkResult`. -/
structure bulkResult where
  Domain : String
  Available : Bool
  Price : String
  Renewal : String
  deriving DecidableEq, Repr

/-- The row `runCheckBulk` appends for domain `d` given the outcome of its lookup. -/
def bulkRow (L : Std) (d : String) (res : Except String JObj) : bulkResult :=
  match res with
  | Except.error _ => { Domain := d, Available := false, Price := "error", Renewal := "error" }
  | Except.ok data =>
    let (avail, price, renewal) := parseCheckResponse L data
    { Domain := d, Available := avail, Price := price, Renewal := renewal }

/-- The `less` function `runCheckBulk` passes to `sort.Slice`. -/
def bulkLess (a b : bulkResult) : Bool :=
  if a.Available ≠ b.Available then a.Available
  else decide (a.Domain.utf8ByteSize < b.Domain.utf8ByteSize)

/-- The loop of `runCheckBulk`: the slice `results` before sorting. `post i e` is
the outcome of the `i`-th `apiPost` call, made on endpoint `e`. -/
def bulkResults (L : Std) (post : Nat → String → Except String JObj) (domains : List String) :
    List bulkResult :=
  domains.enum.map (fun id => bulkRow L id.2 (post id.1 ("/domain/checkDomain/" ++ id.2)))

/-- Embeds `runCheckBulk`: the rows in the order reported, the count of the
summary line, and the error returned. -/
def runCheckBulk (L : Std) (post : Nat → String → Except String JObj) (domains : List String) :
    List bulkResult × Nat × Option String :=
  let results := L.sortSlice bulkLess (bulkResults L post domains)
  (results, (results.filter (fun r => r.Available)).length, none)

/-- An `apiPost` call: endpoint and body. -/
structure Request where
  endpoint : String
  body : JObj

/-- What a run of `runRegister` did. -/
structure RegisterRun where
  out : List String
  requests : List Request
  err : Option String

/-- The `minDuration` of `runRegister`. -/
def minDuration (L : Std) (checkData : JObj) : F64 :=
  match asMap (index checkData "response") with
  | some responseMap =>
    match asFloat L (index responseMap "minDuration") with
    | some f => if F64.lt (F64.fin false 0 0) f then f else F64.fin false 1 0
    | none => F64.fin false 1 0
  | none => F64.fin false 1 0

/-- The `costCents` of `runRegister`: `int64(priceFloat*100*minDuration + 0.5)`. -/
def costCents (L : Std) (priceFloat minDuration : F64) : Int :=
  F64.toInt64 L (mulAdd L (F64.mul priceFloat (F64.fin false 100 0)) minDuration
    (F64.fin false 1 (-1)))

/-- Embeds `runRegister`; `post e b` is the outcome of `apiPost(e, b)`. -/
def runRegister (L : Std) (post : String → JObj → Except String JObj) (domain : String) :
    RegisterRun :=
  let checkReq : Request := { endpoint := "/domain/checkDomain/" ++ domain, body := [] }
  match post checkReq.endpoint checkReq.body with
  | Except.error err => { out := [], requests := [checkReq], err := some err }
  | Except.ok checkData =>
    let (avail, price, renewal) := parseCheckResponse L checkData
    if !avail then
      { out := ["DOMAIN: " ++ domain, "AVAILABLE: no",
                "Cannot register - domain is not available."],
        requests := [checkReq], err := some "domain unavailable" }
    else
      let out := ["DOMAIN: " ++ domain, "AVAILABLE: yes"] ++
        (if price ≠ "-" then ["REGISTER_PRICE: " ++ price] else []) ++
        (if renewal ≠ "-" then ["RENEWAL_PRICE: " ++ renewal] else [])
      let minDuration := minDuration L checkData
      if !(L.parseFloat price).2 then
        { out := out, requests := [checkReq],
          err := some ("invalid registration price " ++ L.quote price) }
      else
        let costCents := costCents L (L.parseFloat price).1 minDuration
        let regReq : Request :=
          { endpoint := "/domain/create/" ++ domain,
            body := [("cost", JVal.int costCents), ("agreeToTerms", JVal.str "yes")] }
        match post regReq.endpoint regReq.body with
        | Except.error err => { out := out, requests := [checkReq, regReq], err := some err }
        | Except.ok regData =>
          if L.equalFold (asString L (index regData "status")) "SUCCESS" then
            { out := out ++ ["REGISTERED: yes", "MESSAGE: " ++
                fallback (asString L (index regData "message")) "Domain registered successfully"],
              requests := [checkReq, regReq], err := none }
          else
            { out := out ++ ["REGISTERED: no", "ERROR: " ++
                fallback (asString L (index regData "message")) "Registration failed"],
              requests := [checkReq, regReq], err := some "registration failed" }

/-- The local struct `row` of `runPricing`. -/
structure row where
  TLD : String
  Register : String
  Renewal : String
  RegNum : F64
  deriving DecidableEq, Repr

/-- The body of the `range pricing` loop of `runPricing`: the row of one entry,
`none` when the entry is skipped. -/
def pricingRow (L : Std) (kv : String × JVal) : Option row :=
  match asMap kv.2 with
  | none => none
  | some entry =>
    let reg := asString L (index entry "registration")
    let renew := asString L (index entry "renewal")
    some { TLD := kv.1, Register := reg, Renewal := renew, RegNum := (L.parseFloat reg).1 }

/-- The `less` function `runPricing` passes to `sort.Slice`. -/
def rowLess (a b : row) : Bool :=
  F64.lt a.RegNum b.RegNum

/-- Embeds `runPricing`; `res` is the outcome of `apiGet`. The result is the
error returned or the rows listed, in order. -/
def runPricing (L : Std) (res : Except String JObj) : Except String (List row) :=
  match res with
  | Except.error err => Except.error err
  | Except.ok data =>
    if !L.equalFold (asString L (index data "status")) "SUCCESS" then
      Except.error (fallback (asString L (index data "message")) "failed to get pricing")
    else
      match asMap (index data "pricing") with
      | none => Except.error "missing pricing data"
      | some pricing =>
        let rows := pricing.filterMap (pricingRow L)
        let rows := L.sortSlice rowLess rows
        Except.ok (if rows.length > 50 then rows.take 50 else rows)

/-! ## The documented contract of `sort.Slice` -/

/-- The function `less` is a strict weak ordering on the elements of `xs`, as the
documentation of `sort.Slice` requires of it. -/
def StrictWeakOn {α : Type} (less : α → α → Bool) (xs : List α) : Prop :=
  (∀ a ∈ xs, less a a = false) ∧
  (∀ a ∈ xs, ∀ b ∈ xs, ∀ c ∈ xs, less a b = true → less b c = true → less a c = true) ∧
  (∀ a ∈ xs, ∀ b ∈ xs, ∀ c ∈ xs, less a b = false → less b a = false →
    less b c = false → less c b = false → less a c = false ∧ less c a = false)

/-- What the documentation of `sort.Slice` promises: the slice is rearranged
(only swaps are made), and when `less` is a strict weak ordering no later
element is less than an earlier one. Nothing is promised about the order of
equal elements. -/
def SortSliceSpec (L : Std) : Prop :=
  ∀ (α : Type) (less : α → α → Bool) (xs : List α),
    (L.sortSlice less xs).Perm xs ∧
    (StrictWeakOn less xs → (L.sortSlice less xs).Pairwise (fun a b => less b a = false))

/-! ## A reference instance of the library

`refStd` is the library as it behaves on linux/amd64 on the inputs the
examples below use: ASCII strings, plain decimal numerals, slices of at most 12
elements (which `sort.Slice` sorts by insertion). -/

/-- Insertion of `x` at the right end of the sorted prefix `p`, as in the inner
loop of Go's `insertionSort`: `x` moves left while it is less than its left
neighbour. -/
def insertRight {α : Type} (less : α → α → Bool) (p : List α) (x : α) : List α :=
  (p.reverse.dropWhile (fun y => less x y)).reverse ++ x ::
    (p.reverse.takeWhile (fun y => less x y)).reverse

/-- Go's `insertionSort` of the package `sort`. -/
def goInsertionSort {α : Type} (less : α → α → Bool) (xs : List α) : List α :=
  xs.foldl (insertRight less) []

/-- ASCII case-insensitive equality: `strings.EqualFold` on ASCII strings. -/
def asciiEqualFold (s t : String) : Bool :=
  s.data.map Char.toLower == t.data.map Char.toLower

/-- The value of a string of decimal digits, `none` when a character is not a digit. -/
def digitsValue (cs : List Char) : Option Nat :=
  cs.foldl (fun acc c =>
    match acc with
    | some n => if c.isDigit then some (n * 10 + (c.toNat - 48)) else none
    | none => none) (some 0)

/-- Parser for an unsigned plain decimal numeral `digits[.digits]`. -/
def parseUnsigned (neg : Bool) (cs : List Char) : F64 × Bool :=
  let ip := cs.takeWhile (fun c => c != '.')
  let fp := (cs.dropWhile (fun c => c != '.')).drop 1
  if ip.length + fp.length = 0 then (F64.fin false 0 0, false)
  else
    match digitsValue (ip ++ fp) with
    | none => (F64.fin false 0 0, false)
    | some n =>
      match F64.ofDecimal neg n fp.length with
      | F64.inf b => (F64.inf b, false)
      | x => (x, true)

/-- The function `strconv.ParseFloat` on `NaN`, on signed infinities and on signed
plain decimal numerals (a numeral too large for a `float64` is a range error
whose value is the infinity). The exponent and hexadecimal forms, which Go also
accepts, are not covered: like malformed input they are reported here as syntax
errors (value 0). -/
def refParseFloat (s : String) : F64 × Bool :=
  let low := s.data.map Char.toLower
  if low = "nan".data then (F64.nan, true)
  else
    let neg := decide (low.head? = some '-')
    let body := if low.head? = some '-' ∨ low.head? = some '+' then low.drop 1 else low
    if body = "inf".data ∨ body = "infinity".data then (F64.inf neg, true)
    else parseUnsigned neg body

/-- Decimal form of a float: the digits of an integer value, `NaN`, `+Inf`, `-Inf`;
for a non-integer the exact expansion (Go prints the shortest digits that round
back, which agree with it on integers below `2^53`). -/
def refFormatFloat (x : F64) : String :=
  match x with
  | F64.nan => "NaN"
  | F64.inf neg => if neg then "-Inf" else "+Inf"
  | F64.fin neg m e =>
    let sign := if neg then "-" else ""
    if 0 ≤ e then sign ++ toString (m * 2 ^ e.toNat)
    else
      let k := (-e).toNat
      let fracDigits := (toString ((m % 2 ^ k) * 5 ^ k)).data
      let padded := List.replicate (k - fracDigits.length) '0' ++ fracDigits
      let frac := padded.rdropWhile (fun c => c == '0')
      if frac = [] then sign ++ toString (m / 2 ^ k)
      else sign ++ toString (m / 2 ^ k) ++ "." ++ String.mk frac

/-- The function `filepath.Join` with separator `/` on elements that need no
cleaning beyond dropping empty and `.` elements. -/
def refPathJoin (elems : List String) : String :=
  let kept := elems.filter (fun e => e ≠ "" && e ≠ ".")
  if kept = [] then (if elems.all (fun e => e = "") then "" else ".")
  else String.intercalate "/" kept

/-- The reference instance. -/
def refStd : Std where
  equalFold := asciiEqualFold
  formatFloat := refFormatFloat
  parseFloat := refParseFloat
  sortSlice := fun less xs => goInsertionSort less xs
  pathJoin := refPathJoin
  int64OutOfRange := fun _ => -2 ^ 63
  fusesMulAdd := false
  quote := fun s => "\"" ++ s ++ "\""

/-- The reference instance on a target that fuses `x*y + z`. -/
def refStdFused : Std :=
  { refStd with fusesMulAdd := true }

/-! ## Go's `sort.Slice`

The pattern-defeating quicksort of the package `sort` (Go 1.19 and later),
function by function, on a list with index operations. Loops carry a fuel
that bounds their number of iterations. -/

/-- The call `data.Less(i, j)`. -/
def lessAt {α : Type} (less : α → α → Bool) (d : List α) (i j : Nat) : Bool :=
  match d[i]?, d[j]? with
  | some x, some y => less x y
  | _, _ => false

/-- The call `data.Swap(i, j)`. -/
def swapAt {α : Type} (d : List α) (i j : Nat) : List α :=
  match d[i]?, d[j]? with
  | some x, some y => (d.set i y).set j x
  | _, _ => d

/-- The loop `for cond(i) { i++ }`. -/
def scanUp (cond : Nat → Bool) : Nat → Nat → Nat
  | 0, i => i
  | f + 1, i => if cond i then scanUp cond f (i + 1) else i

/-- The loop `for cond(j) { j-- }`. -/
def scanDown (cond : Nat → Bool) : Nat → Nat → Nat
  | 0, j => j
  | f + 1, j => if cond j then scanDown cond f (j - 1) else j

/-- The inner loop of `insertionSort`: `for j := i; j > a && Less(j, j-1); j--`. -/
def insertionInner {α : Type} (less : α → α → Bool) (a : Nat) : Nat → List α → List α
  | 0, d => d
  | j + 1, d =>
    if a < j + 1 ∧ lessAt less d (j + 1) j = true then
      insertionInner less a j (swapAt d (j + 1) j)
    else d

/-- Models `insertionSort(data, a, b)`. -/
def insertionSortRange {α : Type} (less : α → α → Bool) (d : List α) (a b : Nat) : List α :=
  (List.range' (a + 1) (b - (a + 1))).foldl (fun d i => insertionInner less a i d) d

/-- Models `siftDown(data, lo, hi, first)`, with `root` starting at `lo`. -/
def siftDown {α : Type} (less : α → α → Bool) (hi first : Nat) : Nat → Nat → List α → List α
  | 0, _, d => d
  | f + 1, root, d =>
    let child := 2 * root + 1
    if child ≥ hi then d
    else
      let child :=
        if child + 1 < hi ∧ lessAt less d (first + child) (first + child + 1) = true then child + 1
        else child
      if lessAt less d (first + root) (first + child) = false then d
      else siftDown less hi first f child (swapAt d (first + root) (first + child))

/-- Models `heapSort(data, a, b)`. -/
def heapSort {α : Type} (less : α → α → Bool) (d : List α) (a b : Nat) : List α :=
  let first := a
  let hi := b - a
  let d := (List.range ((hi - 1) / 2 + 1)).reverse.foldl
    (fun d i => siftDown less hi first hi i d) d
  (List.range hi).reverse.foldl
    (fun d i => siftDown less i first hi 0 (swapAt d first (first + i))) d

/-- Models `(*xorshift).Next` on 64-bit words. -/
def xorshiftNext (r : Nat) : Nat :=
  let r := r ^^^ ((r <<< 13) % 2 ^ 64)
  let r := r ^^^ (r >>> 7)
  r ^^^ ((r <<< 17) % 2 ^ 64)

/-- Models `breakPatterns(data, a, b)`. -/
def breakPatterns {α : Type} (d : List α) (a b : Nat) : List α :=
  let length := b - a
  if length ≥ 8 then
    let modulus := 2 ^ bitLength length
    let idx := a + (length / 4) * 2 - 1
    let r1 := xorshiftNext length
    let r2 := xorshiftNext r1
    let r3 := xorshiftNext r2
    let other := fun (r : Nat) => if r % modulus ≥ length then r % modulus - length else r % modulus
    let d := swapAt d (idx - 1) (a + other r1)
    let d := swapAt d (idx - 1 + 1) (a + other r2)
    swapAt d (idx - 1 + 2) (a + other r3)
  else d

/-- The type `sortedHint`. -/
inductive sortedHint where
  | unknownHint
  | increasingHint
  | decreasingHint
  deriving DecidableEq, Repr

/-- Models `order2(data, a, b, swaps)`: the two indices in order and the new count. -/
def order2 {α : Type} (less : α → α → Bool) (d : List α) (a b swaps : Nat) : Nat × Nat × Nat :=
  if lessAt less d b a = true then (b, a, swaps + 1) else (a, b, swaps)

/-- Models `median(data, a, b, c, swaps)`: the index of the median and the new count. -/
def median {α : Type} (less : α → α → Bool) (d : List α) (a b c swaps : Nat) : Nat × Nat :=
  let r1 := order2 less d a b swaps
  let r2 := order2 less d r1.2.1 c r1.2.2
  let r3 := order2 less d r1.1 r2.1 r2.2.2
  (r3.2.1, r3.2.2)

/-- Models `medianAdjacent(data, a, swaps)`. -/
def medianAdjacent {α : Type} (less : α → α → Bool) (d : List α) (a swaps : Nat) : Nat × Nat :=
  median less d (a - 1) a (a + 1) swaps

/-- Models `choosePivot(data, a, b)`. -/
def choosePivot {α : Type} (less : α → α → Bool) (d : List α) (a b : Nat) : Nat × sortedHint :=
  let l := b - a
  let i := a + l / 4 * 1
  let j := a + l / 4 * 2
  let k := a + l / 4 * 3
  let js : Nat × Nat :=
    if l ≥ 8 then
      if l ≥ 50 then
        let ri := medianAdjacent less d i 0
        let rj := medianAdjacent less d j ri.2
        let rk := medianAdjacent less d k rj.2
        median less d ri.1 rj.1 rk.1 rk.2
      else median less d i j k 0
    else (j, 0)
  if js.2 = 0 then (js.1, sortedHint.increasingHint)
  else if js.2 = 12 then (js.1, sortedHint.decreasingHint)
  else (js.1, sortedHint.unknownHint)

/-- Models `reverseRange(data, a, b)`, with `i` and `j` starting at `a` and `b-1`. -/
def reverseRange {α : Type} : Nat → List α → Nat → Nat → List α
  | 0, d, _, _ => d
  | f + 1, d, i, j => if i < j then reverseRange f (swapAt d i j) (i + 1) (j - 1) else d

/-- The loop `for j := i - 1; j >= 1; j--` of `partialInsertionSort`. -/
def shiftSmaller {α : Type} (less : α → α → Bool) : Nat → List α → List α
  | 0, d => d
  | j + 1, d =>
    if lessAt less d (j + 1) j = false then d
    else shiftSmaller less j (swapAt d (j + 1) j)

/-- The loop `for j := i + 1; j < b; j++` of `partialInsertionSort`. -/
def shiftGreater {α : Type} (less : α → α → Bool) (b : Nat) : Nat → Nat → List α → List α
  | 0, _, d => d
  | f + 1, j, d =>
    if j < b then
      if lessAt less d j (j - 1) = false then d
      else shiftGreater less b f (j + 1) (swapAt d j (j - 1))
    else d

/-- The loop `for j := 0; j < maxSteps; j++` of `partialInsertionSort`. -/
def partialInsertionLoop {α : Type} (less : α → α → Bool) (a b : Nat) :
    Nat → Nat → List α → List α × Bool
  | 0, _, d => (d, false)
  | s + 1, i, d =>
    let i := scanUp (fun i => decide (i < b) && !lessAt less d i (i - 1)) b i
    if i = b then (d, true)
    else if b - a < 50 then (d, false)
    else
      let d := swapAt d i (i - 1)
      let d := if i - a ≥ 2 then shiftSmaller less (i - 1) d else d
      let d := if b - i ≥ 2 then shiftGreater less b b (i + 1) d else d
      partialInsertionLoop less a b s i d

/-- Models `partialInsertionSort(data, a, b)`: the slice and whether it is sorted. -/
def partialInsertionSort {α : Type} (less : α → α → Bool) (d : List α) (a b : Nat) :
    List α × Bool :=
  partialInsertionLoop less a b 5 (a + 1) d

/-- The loop `for { ... }` of `partitionEqual`: the slice and the final `i`. -/
def partitionEqualLoop {α : Type} (less : α → α → Bool) (a b : Nat) :
    Nat → List α → Nat → Nat → List α × Nat
  | 0, d, i, _ => (d, i)
  | f + 1, d, i, j =>
    let i := scanUp (fun i => decide (i ≤ j) && !lessAt less d a i) b i
    let j := scanDown (fun j => decide (i ≤ j) && lessAt less d a j) b j
    if i > j then (d, i)
    else partitionEqualLoop less a b f (swapAt d i j) (i + 1) (j - 1)

/-- Models `partitionEqual(data, a, b, pivot)`: the slice and `newpivot`. -/
def partitionEqual {α : Type} (less : α → α → Bool) (d : List α) (a b pivot : Nat) :
    List α × Nat :=
  partitionEqualLoop less a b b (swapAt d a pivot) (a + 1) (b - 1)

/-- The loop `for { ... }` of `partition`: the slice and the final `j`. -/
def partitionLoop {α : Type} (less : α → α → Bool) (a b : Nat) :
    Nat → List α → Nat → Nat → List α × Nat
  | 0, d, _, j => (d, j)
  | f + 1, d, i, j =>
    let i := scanUp (fun i => decide (i ≤ j) && lessAt less d i a) b i
    let j := scanDown (fun j => decide (i ≤ j) && !lessAt less d j a) b j
    if i > j then (d, j)
    else partitionLoop less a b f (swapAt d i j) (i + 1) (j - 1)

/-- Models `partition(data, a, b, pivot)`: the slice, `newpivot` and
`alreadyPartitioned`. -/
def partition {α : Type} (less : α → α → Bool) (d : List α) (a b pivot : Nat) :
    List α × Nat × Bool :=
  let d := swapAt d a pivot
  let i := scanUp (fun i => decide (i ≤ b - 1) && lessAt less d i a) b (a + 1)
  let j := scanDown (fun j => decide (i ≤ j) && !lessAt less d j a) b (b - 1)
  if i > j then (swapAt d j a, j, true)
  else
    let r := partitionLoop less a b b (swapAt d i j) (i + 1) (j - 1)
    (swapAt r.1 r.2 a, r.2, false)

/-- Models `pdqsort(data, a, b, limit)`; the two flags are the loop variables
`wasBalanced` and `wasPartitioned`, and each turn of the loop and each
recursive call uses one unit of fuel (the range shrinks every time). -/
def pdqsort {α : Type} (less : α → α → Bool) :
    Nat → List α → Nat → Nat → Nat → Bool → Bool → List α
  | 0, d, _, _, _, _, _ => d
  | f + 1, d, a, b, limit, wasBalanced, wasPartitioned =>
    let length := b - a
    if length ≤ 12 then insertionSortRange less d a b
    else if limit = 0 then heapSort less d a b
    else
      let d := if wasBalanced then d else breakPatterns d a b
      let limit := if wasBalanced then limit else limit - 1
      let ph := choosePivot less d a b
      let d := if ph.2 = sortedHint.decreasingHint then reverseRange b d a (b - 1) else d
      let pivot := if ph.2 = sortedHint.decreasingHint then (b - 1) - (ph.1 - a) else ph.1
      let hint := if ph.2 = sortedHint.decreasingHint then sortedHint.increasingHint else ph.2
      let ps : List α × Bool :=
        if wasBalanced && wasPartitioned && decide (hint = sortedHint.increasingHint) then
          partialInsertionSort less d a b
        else (d, false)
      if ps.2 then ps.1
      else
        let d := ps.1
        if 0 < a ∧ lessAt less d (a - 1) pivot = false then
          let pe := partitionEqual less d a b pivot
          pdqsort less f pe.1 pe.2 b limit wasBalanced wasPartitioned
        else
          let pr := partition less d a b pivot
          let mid := pr.2.1
          let leftLen := mid - a
          let rightLen := b - mid
          let balanceThreshold := length / 8
          if leftLen < rightLen then
            pdqsort less f (pdqsort less f pr.1 a mid limit true true) (mid + 1) b limit
              (decide (leftLen ≥ balanceThreshold)) pr.2.2
          else
            pdqsort less f (pdqsort less f pr.1 (mid + 1) b limit true true) a mid limit
              (decide (rightLen ≥ balanceThreshold)) pr.2.2

/-- Models `sort.Slice(x, less)`: `pdqsort` on the whole slice with limit
`bits.Len(length)`. -/
def goSortSlice {α : Type} (less : α → α → Bool) (xs : List α) : List α :=
  pdqsort less (xs.length + 1) xs 0 xs.length (bitLength xs.length) true true

/-- The reference library with `sort.Slice` as Go implements it. -/
def pdqStd : Std :=
  { refStd with sortSlice := fun less xs => goSortSlice less xs }

/-- Thirteen domains: twelve of five bytes and, last, one of four. -/
def thirteenDomains : List String :=
  ["a.com", "b.com", "c.com", "d.com", "e.com", "f.com", "g.com", "h.com", "i.com",
   "j.com", "k.com", "l.com", "z.io"]

/-! ## Inputs of the examples and definitions that follow the specification -/

/-- The response of `TestParseCheckResponse`. -/
def testResponse : JObj :=
  [("status", JVal.str "SUCCESS"),
   ("response", JVal.obj
     [("avail", JVal.str "yes"),
      ("pricing", JVal.obj
        [("registration", JVal.str "12.34"), ("renewal", JVal.str "14.56")])])]

/-- A flat check response: no `response` object, the fields at top level. -/
def flatResponse : JObj :=
  [("status", JVal.str "SUCCESS"), ("avail", JVal.str "yes"), ("price", JVal.str "9.99")]

/-- The scope's `additional.renewal.price`: its string form when both maps are
present and the string form is not empty. -/
def additionalRenewal (L : Std) (response : JObj) : Option String :=
  match asMap (index response "additional") with
  | some add =>
    match asMap (index add "renewal") with
    | some ren =>
      if asString L (index ren "price") = "" then none
      else some (asString L (index ren "price"))
    | none => none
  | none => none

/-- The scope's `pricing.renewal`: its string form when the map is present and
the string form is not empty. -/
def pricingRenewal (L : Std) (response : JObj) : Option String :=
  match asMap (index response "pricing") with
  | some pr =>
    if asString L (index pr "renewal") = "" then none
    else some (asString L (index pr "renewal"))
  | none => none

/-- A response whose `additional.renewal.price` is the string `-` and whose
`pricing.renewal` is `9.99`. -/
def dashRenewalResponse : JObj :=
  [("status", JVal.str "SUCCESS"),
   ("response", JVal.obj
     [("avail", JVal.str "yes"),
      ("additional", JVal.obj [("renewal", JVal.obj [("price", JVal.str "-")])]),
      ("pricing", JVal.obj [("renewal", JVal.str "9.99")])])]

/-- The entry a line of a credential file defines, following the specification:
none when the line is blank after trimming, begins with `#`, or has no `=`;
otherwise the trimmed text before the first `=` of the line, mapped to the
trimmed text after it with its surrounding double quotes stripped. -/
def lineEntry (line : List Char) : Option (String × String) :=
  if trimSpace line = [] ∨ (trimSpace line).head? = some '#' ∨ '=' ∉ line then none
  else
    some (String.mk (trimSpace (line.takeWhile (fun c => c != '='))),
      String.mk (trimQuotes (trimSpace ((line.dropWhile (fun c => c != '=')).drop 1))))

/-- The text of the specification's credential example. -/
def specEnvText : String :=
  "PORKBUN_API_KEY=\"pk_live\"\nPORKBUN_SECRET_KEY=sk_live\nIGNORED"

/-- A credential text with leading and trailing blanks, tabs, a carriage return,
an indented comment, blank lines, quoted values and a line without `=`. -/
def spacedEnvText : String :=
  "  KEY = value  \r\n\t \n   # note=1\n NAME =\t\"quoted value\" \nNOEQ  \nURL=a=b\n\"Q\" = \"\"x\"\"\n"

/-- The text of `TestParseEnv`. -/
def testEnvText : String :=
  "\n# comment\nPORKBUN_API_KEY=\"pk_live\"\nPORKBUN_SECRET_KEY=sk_live\nIGNORED\n"

/-- The environment of `TestLoadKeysPrefersEnvironment`. -/
def testGetenv (name : String) : String :=
  if name = "PORKBUN_API_KEY" then "env_pk"
  else if name = "PORKBUN_SECRET_KEY" then "env_sk"
  else if name = "PORKCTL_ENV_FILE" then "C:/this/path/does/not/exist.env"
  else ""

/-- A file system with no file at all. -/
def noFiles (_ : String) : Option String :=
  none

/-- A file system whose only file is `porkbun.env`, holding other keys than the
environment. -/
def oneFile (path : String) : Option String :=
  if path = "porkbun.env" then some "PORKBUN_API_KEY=file_pk\nPORKBUN_SECRET_KEY=file_sk\n"
  else none

/-- The availability request of `runRegister`. -/
def checkRequest (domain : String) : Request :=
  { endpoint := "/domain/checkDomain/" ++ domain, body := [] }

/-- The domain-create request of `runRegister` carrying `cost`. -/
def createRequest (domain : String) (cost : Int) : Request :=
  { endpoint := "/domain/create/" ++ domain,
    body := [("cost", JVal.int cost), ("agreeToTerms", JVal.str "yes")] }

/-- A successful check response reporting an available domain without any price. -/
def noPriceResponse : JObj :=
  [("status", JVal.str "SUCCESS"), ("response", JVal.obj [("avail", JVal.str "yes")])]

/-- The stable sort of the bulk results by the composite key (available first,
then domain length ascending), following the specification. -/
def stableBulkOrder (rows : List bulkResult) : List bulkResult :=
  rows.insertionSort (fun a b => bulkLess b a = false)

/-- A lookup that fails for every domain. -/
def failingPost (_ : Nat) (_ : String) : Except String JObj :=
  Except.error "request failed"

/-- A lookup that succeeds with the response of `TestParseCheckResponse` for the
first domain and fails for the others. -/
def firstOnlyPost (i : Nat) (_ : String) : Except String JObj :=
  if i = 0 then Except.ok testResponse else Except.error "request failed"

/-- The rational value of the finite float `(-1)^neg * m * 2^e`. -/
def F64.val (neg : Bool) (m : Nat) (e : Int) : ℚ :=
  (F64.signed neg m : ℚ) * (2 : ℚ) ^ e

/-- The position of a float that is not NaN on the extended rational line. -/
def F64.key (x : F64) : WithBot (WithTop ℚ) :=
  match x with
  | F64.nan => ⊥
  | F64.inf true => ⊥
  | F64.inf false => ((⊤ : WithTop ℚ) : WithBot (WithTop ℚ))
  | F64.fin neg m e => (((F64.val neg m e : ℚ) : WithTop ℚ) : WithBot (WithTop ℚ))

/-- A pricing response with three TLDs, one of which has the registration price
`NaN`, visited by `range` in the order written. -/
def nanPricingResponse : JObj :=
  [("status", JVal.str "SUCCESS"),
   ("pricing", JVal.obj
     [("aaa", JVal.obj [("registration", JVal.str "2"), ("renewal", JVal.str "2")]),
      ("bbb", JVal.obj [("registration", JVal.str "NaN"), ("renewal", JVal.str "3")]),
      ("ccc", JVal.obj [("registration", JVal.str "1"), ("renewal", JVal.str "1")])])]

/-- A pricing response with two TLDs and one entry that is not an object. -/
def smallPricingResponse : JObj :=
  [("status", JVal.str "SUCCESS"),
   ("pricing", JVal.obj
     [("com", JVal.obj [("registration", JVal.str "9.68"), ("renewal", JVal.str "10.18")]),
      ("note", JVal.str "not an object"),
      ("de", JVal.obj [("registration", JVal.str "4.50"), ("renewal", JVal.str "4.50")])])]

/-- The TLDs and numeric registration prices of the rows `runPricing` lists. -/
def listedPrices (res : Except String (List row)) : List (String × F64) :=
  match res with
  | Except.ok rows => rows.map (fun r => (r.TLD, r.RegNum))
  | Except.error _ => []

/-- The decimal number a plain numeral `digits[.digits]` denotes: `some (n, k)`
for the number `n / 10^k`, where `k` is the count of digits after the point;
`none` for any other text. -/
def decimalDigits (s : String) : Option (Nat × Nat) :=
  let ip := s.data.takeWhile (fun c => c != '.')
  let fp := (s.data.dropWhile (fun c => c != '.')).drop 1
  if ip.length + fp.length = 0 then none
  else (digitsValue (ip ++ fp)).map (fun n => (n, fp.length))

/-- The cost the specification states: `p * d` in cents, rounded to the nearest
integer with halves up, in exact arithmetic. -/
def exactCents (p d : ℚ) : ℤ :=
  ⌊p * 100 * d + 1 / 2⌋

/-- A successful check response for an available domain with the register
price `price` and no `minDuration`. -/
def pricedResponse (price : String) : JObj :=
  [("status", JVal.str "SUCCESS"),
   ("response", JVal.obj [("avail", JVal.str "yes"), ("price", JVal.str price)])]

/-- The response of `TestParseCheckResponse` with `minDuration` 2 added. -/
def twoYearResponse : JObj :=
  [("status", JVal.str "SUCCESS"),
   ("response", JVal.obj
     [("avail", JVal.str "yes"),
      ("minDuration", JVal.num (F64.fin false 2 0)),
      ("pricing", JVal.obj
        [("registration", JVal.str "12.34"), ("renewal", JVal.str "14.56")])])]

/-! ## Theorems -/

/-! ### The availability gate of `parseCheckResponse` -/

/-- C1: `parseCheckResponse` reports available exactly when the top-level status
folds to `SUCCESS` and the `avail` field of the lookup scope is the boolean `true`
or a string that folds to `yes` or `true`, where the scope is `data["response"]`
when that is an object and `data` itself otherwise; a status that does not fold
to `SUCCESS` gives `false` whatever `avail` holds, and status `SUCCESS` with
`avail` equal to `yes` gives `true`, nested under `response` or flat (for a fold
that relates each of these two strings to itself). -/
theorem parseCheckResponse_available_iff (L : Std) (data : JObj) :
    (∀ r : JObj, index data "response" = JVal.obj r →
      ((parseCheckResponse L data).1 = true ↔
        L.equalFold (asString L (index data "status")) "SUCCESS" = true ∧
        (lookup r "avail" = some (JVal.bool true) ∨
          ∃ s, lookup r "avail" = some (JVal.str s) ∧
            (L.equalFold s "yes" = true ∨ L.equalFold s "true" = true)))) ∧
    ((∀ r : JObj, index data "response" ≠ JVal.obj r) →
      ((parseCheckResponse L data).1 = true ↔
        L.equalFold (asString L (index data "status")) "SUCCESS" = true ∧
        (lookup data "avail" = some (JVal.bool true) ∨
          ∃ s, lookup data "avail" = some (JVal.str s) ∧
            (L.equalFold s "yes" = true ∨ L.equalFold s "true" = true)))) ∧
    (L.equalFold (asString L (index data "status")) "SUCCESS" = false →
      (parseCheckResponse L data).1 = false) ∧
    (L.equalFold "SUCCESS" "SUCCESS" = true → L.equalFold "yes" "yes" = true →
      ∀ r : JObj, index data "status" = JVal.str "SUCCESS" →
        index data "response" = JVal.obj r → lookup r "avail" = some (JVal.str "yes") →
        (parseCheckResponse L data).1 = true) ∧
    (L.equalFold "SUCCESS" "SUCCESS" = true → L.equalFold "yes" "yes" = true →
      index data "status" = JVal.str "SUCCESS" →
      (∀ r : JObj, index data "response" ≠ JVal.obj r) →
      lookup data "avail" = some (JVal.str "yes") →
      (parseCheckResponse L data).1 = true) := by
  have key : ∀ scope : JObj, availField L scope = true ↔
      (lookup scope "avail" = some (JVal.bool true) ∨
        ∃ s, lookup scope "avail" = some (JVal.str s) ∧
          (L.equalFold s "yes" = true ∨ L.equalFold s "true" = true)) := by
    intro scope
    unfold availField
    cases h : lookup scope "avail" with
    | none => simp
    | some v => cases v <;> simp
  have nested : ∀ r : JObj, index data "response" = JVal.obj r → responseScope data = r := by
    intro r hr
    simp [responseScope, hr, asMap]
  have flat : (∀ r : JObj, index data "response" ≠ JVal.obj r) → responseScope data = data := by
    intro h
    unfold responseScope
    cases hv : index data "response" with
    | obj kvs => exact absurd hv (h kvs)
    | _ => rfl
  have main : (parseCheckResponse L data).1 = true ↔
      L.equalFold (asString L (index data "status")) "SUCCESS" = true ∧
        availField L (responseScope data) = true := by
    simp only [parseCheckResponse, Bool.and_eq_true]
  refine ⟨?_, ?_, ?_, ?_, ?_⟩
  · intro r hr
    rw [main, nested r hr, key]
  · intro h
    rw [main, flat h, key]
  · intro h
    simp [parseCheckResponse, h]
  · intro hS hY r hst hr ha
    rw [main, nested r hr, key, hst]
    exact ⟨hS, Or.inr ⟨"yes", ha, Or.inl hY⟩⟩
  · intro hS hY hst h ha
    rw [main, flat h, key, hst]
    exact ⟨hS, Or.inr ⟨"yes", ha, Or.inl hY⟩⟩

/-- C1, instances: the nested response of `TestParseCheckResponse` and a flat
response without a `response` object are both reported available. -/
theorem parseCheckResponse_available_iff_witness :
    (parseCheckResponse refStd testResponse).1 = true ∧
    (parseCheckResponse refStd flatResponse).1 = true :=
  ⟨(parseCheckResponse_available_iff refStd testResponse).2.2.2.1 (by decide) (by decide)
    [("avail", JVal.str "yes"),
      ("pricing", JVal.obj
        [("registration", JVal.str "12.34"), ("renewal", JVal.str "14.56")])]
    rfl rfl rfl,
   (parseCheckResponse_available_iff refStd flatResponse).2.2.2.2 (by decide) (by decide)
    rfl (fun r h => by cases h) rfl⟩

/-! ### The renewal price of `parseCheckResponse` -/

lemma renewalFromAdditional_eq (L : Std) (response : JObj) :
    renewalFromAdditional L response = (additionalRenewal L response).getD "-" := by
  unfold renewalFromAdditional additionalRenewal
  split
  · split
    · split <;> simp_all
    · rfl
  · rfl

lemma renewalPrice_eq (L : Std) (response : JObj) :
    renewalPrice L response =
      if (additionalRenewal L response).getD "-" = "-" then
        (pricingRenewal L response).getD "-"
      else (additionalRenewal L response).getD "-" := by
  unfold renewalPrice
  simp only [renewalFromAdditional_eq]
  by_cases h : (additionalRenewal L response).getD "-" = "-"
  · simp only [h, if_true]
    unfold pricingRenewal
    split
    · split <;> simp_all
    · rfl
  · simp only [h, if_false]

/-- C6, as stated, fails: with `additional.renewal.price` equal to `-` (present,
non-empty) and `pricing.renewal` equal to `9.99`, the renewal price returned is
`9.99`, not the value of `additional.renewal.price`. -/
theorem renewal_prefers_additional_counterexample :
    additionalRenewal refStd (responseScope dashRenewalResponse) = some "-" ∧
    (parseCheckResponse refStd dashRenewalResponse).2.2 = "9.99" ∧
    (parseCheckResponse refStd dashRenewalResponse).2.2 ≠ "-" := by
  refine ⟨rfl, rfl, ?_⟩
  decide

/-- C6, amended: the renewal price is the scope's `additional.renewal.price`
whenever that is present with a non-empty string form other than the sentinel
`-`; otherwise (absent, empty, or `-`) it is the scope's `pricing.renewal` when
that is present with a non-empty string form; otherwise it is `-`. -/
theorem renewal_resolution_order (L : Std) (data : JObj) :
    (∀ p, additionalRenewal L (responseScope data) = some p → p ≠ "-" →
      (parseCheckResponse L data).2.2 = p) ∧
    ((additionalRenewal L (responseScope data) = none ∨
        additionalRenewal L (responseScope data) = some "-") →
      ∀ q, pricingRenewal L (responseScope data) = some q →
        (parseCheckResponse L data).2.2 = q) ∧
    ((additionalRenewal L (responseScope data) = none ∨
        additionalRenewal L (responseScope data) = some "-") →
      pricingRenewal L (responseScope data) = none →
        (parseCheckResponse L data).2.2 = "-") := by
  have h : (parseCheckResponse L data).2.2 = renewalPrice L (responseScope data) := rfl
  rw [h, renewalPrice_eq]
  refine ⟨?_, ?_, ?_⟩
  · intro p hp hne
    simp [hp, hne]
  · intro ha q hq
    rcases ha with ha | ha <;> simp [ha, hq]
  · intro ha hq
    rcases ha with ha | ha <;> simp [ha, hq]

/-- C6, instance: on the response of `TestParseCheckResponse` there is no
`additional` object and the renewal price is `pricing.renewal`, `14.56`. -/
theorem renewal_resolution_order_witness :
    (parseCheckResponse refStd testResponse).2.2 = "14.56" :=
  (renewal_resolution_order refStd testResponse).2.1 (Or.inl rfl) "14.56" rfl

/-! ### `parseEnv` -/

lemma isSpace_eq_false : isSpace '=' = false := by decide

lemma trimSpace_spaces_append (sp x : List Char) (h : ∀ c ∈ sp, isSpace c = true) :
    trimSpace (sp ++ x) = trimSpace x := by
  unfold trimSpace
  rw [List.dropWhile_append_of_pos h]

lemma trimSpace_append_spaces (x sp : List Char) (h : ∀ c ∈ sp, isSpace c = true) :
    trimSpace (x ++ sp) = trimSpace x := by
  unfold trimSpace
  rw [List.dropWhile_append]
  by_cases he : (List.dropWhile isSpace x).isEmpty = true
  · have hx : List.dropWhile isSpace x = [] := List.isEmpty_iff.mp he
    have hsp : List.dropWhile isSpace sp = [] := List.dropWhile_eq_nil_iff.mpr h
    simp [hx, hsp]
  · rw [if_neg he]
    unfold List.rdropWhile
    rw [List.reverse_append, List.dropWhile_append_of_pos]
    intro c hc
    exact h c (List.mem_reverse.mp hc)

lemma trimSpace_decomp (l : List Char) :
    ∃ sp sp2, l = sp ++ trimSpace l ++ sp2 ∧ (∀ c ∈ sp, isSpace c = true) ∧
      (∀ c ∈ sp2, isSpace c = true) := by
  refine ⟨l.takeWhile isSpace, (l.dropWhile isSpace).rtakeWhile isSpace, ?_, ?_, ?_⟩
  · unfold trimSpace
    have h1 : ∀ m : List Char, m.rdropWhile isSpace ++ m.rtakeWhile isSpace = m := by
      intro m
      unfold List.rdropWhile List.rtakeWhile
      rw [← List.reverse_append, List.takeWhile_append_dropWhile, List.reverse_reverse]
    rw [List.append_assoc, h1, List.takeWhile_append_dropWhile]
  · intro c hc
    exact List.mem_takeWhile_imp hc
  · intro c hc
    unfold List.rtakeWhile at hc
    exact List.mem_takeWhile_imp (List.mem_reverse.mp hc)

lemma first_eq_decomp (t : List Char) (h : '=' ∈ t) :
    ∃ k v, t = k ++ '=' :: v ∧ '=' ∉ k := by
  induction t with
  | nil => simp at h
  | cons c cs ih =>
    by_cases hc : c = '='
    · exact ⟨[], cs, by simp [hc], by simp⟩
    · have h2 : '=' ∈ cs := by
        rcases List.mem_cons.mp h with h1 | h1
        · exact absurd h1.symm hc
        · exact h1
      obtain ⟨k, v, hkv, hk⟩ := ih h2
      refine ⟨c :: k, v, by simp [hkv], ?_⟩
      intro hm
      rcases List.mem_cons.mp hm with h1 | h1
      · exact hc h1.symm
      · exact hk h1

lemma indexEq_decomp (k v : List Char) (hk : '=' ∉ k) :
    indexEq (k ++ '=' :: v) = some k.length := by
  induction k with
  | nil => simp [indexEq]
  | cons c cs ih =>
    have hc : c ≠ '=' := fun h => hk (by simp [h])
    have hcs : '=' ∉ cs := fun h => hk (List.mem_cons_of_mem _ h)
    simp [indexEq, hc, ih hcs]

lemma indexEq_none (t : List Char) (h : '=' ∉ t) : indexEq t = none := by
  induction t with
  | nil => rfl
  | cons c cs ih =>
    have hc : c ≠ '=' := fun h2 => h (by simp [h2])
    have hcs : '=' ∉ cs := fun h2 => h (List.mem_cons_of_mem _ h2)
    simp [indexEq, hc, ih hcs]

lemma takeWhile_ne_decomp (k v : List Char) (hk : '=' ∉ k) :
    (k ++ '=' :: v).takeWhile (fun c => c != '=') = k := by
  induction k with
  | nil => simp
  | cons c cs ih =>
    have hc : c ≠ '=' := fun h => hk (by simp [h])
    have hcs : '=' ∉ cs := fun h => hk (List.mem_cons_of_mem _ h)
    have hb : (c != '=') = true := by simp [hc]
    simp only [List.cons_append, List.takeWhile_cons, hb, if_true, ih hcs]

lemma dropWhile_ne_decomp (k v : List Char) (hk : '=' ∉ k) :
    (k ++ '=' :: v).dropWhile (fun c => c != '=') = '=' :: v := by
  induction k with
  | nil => simp
  | cons c cs ih =>
    have hc : c ≠ '=' := fun h => hk (by simp [h])
    have hcs : '=' ∉ cs := fun h => hk (List.mem_cons_of_mem _ h)
    have hb : (c != '=') = true := by simp [hc]
    simp only [List.cons_append, List.dropWhile_cons, hb, if_true, ih hcs]

lemma hasHashPrefix_iff (t : List Char) : hasHashPrefix t = true ↔ t.head? = some '#' := by
  cases t with
  | nil => simp [hasHashPrefix]
  | cons c cs => simp [hasHashPrefix]

/-- One iteration of the loop of `parseEnv` adds the entry the line defines. -/
lemma parseEnvLine_eq (out : EnvMap) (line : List Char) :
    parseEnvLine out line =
      match lineEntry line with
      | none => out
      | some e => e :: out := by
  obtain ⟨sp, sp2, hl, hsp, hsp2⟩ := trimSpace_decomp line
  have hmem : '=' ∈ line ↔ '=' ∈ trimSpace line := by
    constructor
    · intro h
      rw [hl] at h
      simp only [List.mem_append] at h
      rcases h with (h | h) | h
      · exact absurd (hsp _ h) (by simp [isSpace_eq_false])
      · exact h
      · exact absurd (hsp2 _ h) (by simp [isSpace_eq_false])
    · intro h
      rw [hl]
      simp [h]
  unfold parseEnvLine lineEntry
  by_cases hb : trimSpace line = []
  · simp [hb]
  by_cases hh : (trimSpace line).head? = some '#'
  · simp [hb, (hasHashPrefix_iff _).mpr hh, hh]
  have hh2 : hasHashPrefix (trimSpace line) = false := by
    cases h : hasHashPrefix (trimSpace line) with
    | false => rfl
    | true => exact absurd ((hasHashPrefix_iff _).mp h) hh
  by_cases he : '=' ∈ line
  · obtain ⟨k, v, hkv, hk⟩ := first_eq_decomp _ (hmem.mp he)
    have hline : line = (sp ++ k) ++ '=' :: (v ++ sp2) := by
      rw [hl, hkv]; simp
    have hspk : '=' ∉ sp ++ k := by
      intro h
      rcases List.mem_append.mp h with h | h
      · exact absurd (hsp _ h) (by simp [isSpace_eq_false])
      · exact hk h
    have h1 : line.takeWhile (fun c => c != '=') = sp ++ k := by
      rw [hline]; exact takeWhile_ne_decomp _ _ hspk
    have h2 : (line.dropWhile (fun c => c != '=')).drop 1 = v ++ sp2 := by
      rw [hline, dropWhile_ne_decomp _ _ hspk]; rfl
    have h3 : indexEq (trimSpace line) = some k.length := by
      rw [hkv]; exact indexEq_decomp _ _ hk
    have h4 : (trimSpace line).take k.length = k := by
      rw [hkv]; simp
    have h5 : (trimSpace line).drop (k.length + 1) = v := by
      rw [hkv]; simp
    simp only [hb, hh, hh2, he, h3, h4, h5, h1, h2, trimSpace_spaces_append _ _ hsp,
      trimSpace_append_spaces _ _ hsp2]
    simp
  · have h3 : indexEq (trimSpace line) = none :=
      indexEq_none _ (fun h => he (hmem.mpr h))
    simp [hb, hh2, h3, he]

lemma parseEnv_foldl (lines : List (List Char)) (out : EnvMap) :
    lines.foldl parseEnvLine out = (lines.filterMap lineEntry).reverse ++ out := by
  induction lines generalizing out with
  | nil => simp
  | cons l ls ih =>
    rw [List.foldl_cons, ih, parseEnvLine_eq]
    cases h : lineEntry l with
    | none => simp [List.filterMap_cons, h]
    | some e => simp [List.filterMap_cons, h]

lemma splitLines_ne_nil (s : List Char) : splitLines s ≠ [] := by
  cases s with
  | nil => simp [splitLines]
  | cons c cs =>
    unfold splitLines
    split
    · simp
    · split <;> simp

lemma splitLines_append (a b : List Char) :
    splitLines (a ++ '\n' :: b) = splitLines a ++ splitLines b := by
  induction a with
  | nil => simp [splitLines]
  | cons c cs ih =>
    by_cases hc : c = '\n'
    · simp [splitLines, hc, ih]
    · have e1 : splitLines (c :: (cs ++ '\n' :: b)) =
          match splitLines (cs ++ '\n' :: b) with
          | [] => [[c]]
          | l :: ls => (c :: l) :: ls := by
        rw [splitLines, if_neg hc]
      have e2 : splitLines (c :: cs) =
          match splitLines cs with
          | [] => [[c]]
          | l :: ls => (c :: l) :: ls := by
        rw [splitLines, if_neg hc]
      rw [List.cons_append, e1, e2, ih]
      cases h : splitLines cs with
      | nil => exact absurd h (splitLines_ne_nil cs)
      | cons l ls => rfl

lemma splitLines_single (l : List Char) (h : '\n' ∉ l) : splitLines l = [l] := by
  induction l with
  | nil => rfl
  | cons c cs ih =>
    have hc : c ≠ '\n' := fun h2 => h (by simp [h2])
    have hcs : '\n' ∉ cs := fun h2 => h (List.mem_cons_of_mem _ h2)
    simp [splitLines, hc, ih hcs]

lemma parseEnv_eq (content : String) :
    parseEnv content = ((splitLines content.data).filterMap lineEntry).reverse := by
  unfold parseEnv
  rw [parseEnv_foldl]
  simp

lemma lineEntry_hash (line : List Char) (h : line.head? = some '#') :
    (trimSpace line).head? = some '#' := by
  obtain ⟨sp, sp2, hl, hsp, hsp2⟩ := trimSpace_decomp line
  have hns : isSpace '#' = false := by decide
  cases hsp' : sp with
  | cons c cs =>
    rw [hl, hsp'] at h
    simp at h
    have := hsp c (by simp [hsp'])
    rw [h, hns] at this
    exact absurd this (by simp)
  | nil =>
    cases ht : trimSpace line with
    | cons c cs =>
      rw [hl, hsp', ht] at h
      simpa using h
    | nil =>
      rw [hsp', ht] at hl
      simp at hl
      cases hs2 : sp2 with
      | nil => rw [hl, hs2] at h; simp at h
      | cons c cs =>
        rw [hl, hs2] at h
        simp at h
        have := hsp2 c (by simp [hs2])
        rw [h, hns] at this
        exact absurd this (by simp)

/-- Trimming a set of characters from both ends only removes characters of the
set, and leaves a text that neither begins nor ends with one. -/
lemma trimBoth_spec (p : Char → Bool) (l : List Char) :
    (∃ a b, l = a ++ (l.dropWhile p).rdropWhile p ++ b ∧ (∀ c ∈ a, p c = true) ∧
      (∀ c ∈ b, p c = true)) ∧
    (∀ c, ((l.dropWhile p).rdropWhile p).head? = some c → p c = false) ∧
    (∀ c, ((l.dropWhile p).rdropWhile p).getLast? = some c → p c = false) := by
  have h1 : ∀ m : List Char, m.rdropWhile p ++ m.rtakeWhile p = m := by
    intro m
    unfold List.rdropWhile List.rtakeWhile
    rw [← List.reverse_append, List.takeWhile_append_dropWhile, List.reverse_reverse]
  refine ⟨⟨l.takeWhile p, (l.dropWhile p).rtakeWhile p, ?_, ?_, ?_⟩, ?_, ?_⟩
  · rw [List.append_assoc, h1, List.takeWhile_append_dropWhile]
  · intro c hc
    exact List.mem_takeWhile_imp hc
  · intro c hc
    unfold List.rtakeWhile at hc
    exact List.mem_takeWhile_imp (List.mem_reverse.mp hc)
  · intro c hc
    cases ht : (l.dropWhile p).rdropWhile p with
    | nil => rw [ht] at hc; simp at hc
    | cons x xs =>
      rw [ht] at hc
      simp only [List.head?_cons, Option.some.injEq] at hc
      obtain ⟨t, htl⟩ := (List.rdropWhile_prefix p (l := l.dropWhile p))
      rw [ht] at htl
      cases hd : l.dropWhile p with
      | nil => rw [hd] at htl; simp at htl
      | cons y ys =>
        rw [hd] at htl
        have hy : p y = false := by
          have hl : ∀ (m : List Char) (d : Char) (r : List Char),
              m.dropWhile p = d :: r → p d = false := by
            intro m
            induction m with
            | nil => intro d r h; simp at h
            | cons a as ih =>
              intro d r h
              rw [List.dropWhile_cons] at h
              by_cases hp : p a = true
              · rw [if_pos hp] at h
                exact ih d r h
              · rw [if_neg hp] at h
                injection h with h1 _
                rw [← h1]
                simpa using hp
          exact hl l y ys hd
        simp only [List.cons_append, List.cons.injEq] at htl
        rw [← hc, htl.1]
        exact hy
  · intro c hc
    have hne : (l.dropWhile p).rdropWhile p ≠ [] := by
      intro h
      rw [h] at hc
      simp at hc
    have hlast := List.rdropWhile_last_not p (l.dropWhile p) hne
    rw [List.getLast?_eq_getLast _ hne] at hc
    simp only [Option.some.injEq] at hc
    rw [← hc]
    simpa using hlast

/-- C8: `parseEnv` returns exactly the map its `KEY=VALUE` lines define (the
entries of the lines in order, a later line overriding an earlier one); a line
that is blank after trimming, begins with `#` or has no `=` defines no entry
and deleting it does not change the result; every other line maps the trimmed
text before its first `=` to the trimmed text after it with the surrounding
double quotes stripped, where trimming removes exactly the white space at both
ends and stripping exactly the double quotes at both ends; and the credential
example yields exactly the two keys `PORKBUN_API_KEY` and `PORKBUN_SECRET_KEY`. -/
theorem parseEnv_spec (content : String) :
    parseEnv content = ((splitLines content.data).filterMap lineEntry).reverse ∧
    (∀ line : List Char, line.head? = some '#' → lineEntry line = none) ∧
    (∀ a line b : String, '\n' ∉ line.data →
      (trimSpace line.data = [] ∨ (trimSpace line.data).head? = some '#' ∨
        '=' ∉ line.data) →
      parseEnv (a ++ "\n" ++ line ++ "\n" ++ b) = parseEnv (a ++ "\n" ++ b) ∧
      parseEnv (line ++ "\n" ++ b) = parseEnv b ∧
      parseEnv (a ++ "\n" ++ line) = parseEnv a) ∧
    parseEnv specEnvText =
      [("PORKBUN_SECRET_KEY", "sk_live"), ("PORKBUN_API_KEY", "pk_live")] ∧
    parseEnv testEnvText =
      [("PORKBUN_SECRET_KEY", "sk_live"), ("PORKBUN_API_KEY", "pk_live")] ∧
    (∀ k : String, (parseEnv specEnvText).at k =
      if k = "PORKBUN_SECRET_KEY" then "sk_live"
      else if k = "PORKBUN_API_KEY" then "pk_live" else "") ∧
    (∀ l : List Char,
      (∃ a b, l = a ++ trimSpace l ++ b ∧ (∀ c ∈ a, isSpace c = true) ∧
        (∀ c ∈ b, isSpace c = true)) ∧
      (∀ c, (trimSpace l).head? = some c → isSpace c = false) ∧
      (∀ c, (trimSpace l).getLast? = some c → isSpace c = false)) ∧
    (∀ l : List Char,
      (∃ a b, l = a ++ trimQuotes l ++ b ∧ (∀ c ∈ a, c = '"') ∧ (∀ c ∈ b, c = '"')) ∧
      (∀ c, (trimQuotes l).head? = some c → c ≠ '"') ∧
      (∀ c, (trimQuotes l).getLast? = some c → c ≠ '"')) ∧
    (isSpace ' ' = true ∧ isSpace '\t' = true ∧ isSpace '\n' = true ∧ isSpace '\r' = true ∧
      isSpace 'A' = false ∧ isSpace '=' = false ∧ isSpace '#' = false ∧ isSpace '"' = false ∧
      isSpace '_' = false) ∧
    (∀ a b : List Char, splitLines (a ++ '\n' :: b) = splitLines a ++ splitLines b) ∧
    (∀ l : List Char, '\n' ∉ l → splitLines l = [l]) ∧
    parseEnv spacedEnvText =
      [("\"Q\"", "x"), ("URL", "a=b"), ("NAME", "quoted value"), ("KEY", "value")] ∧
    parseEnv "  KEY = value  " = [("KEY", "value")] := by
  have hspec : parseEnv specEnvText =
      [("PORKBUN_SECRET_KEY", "sk_live"), ("PORKBUN_API_KEY", "pk_live")] := by
    decide
  have htest : parseEnv testEnvText =
      [("PORKBUN_SECRET_KEY", "sk_live"), ("PORKBUN_API_KEY", "pk_live")] := by
    decide
  have hspaced : parseEnv spacedEnvText =
      [("\"Q\"", "x"), ("URL", "a=b"), ("NAME", "quoted value"), ("KEY", "value")] := by
    decide
  have hone : parseEnv "  KEY = value  " = [("KEY", "value")] := by
    decide
  have hquote : ∀ l : List Char,
      (∃ a b, l = a ++ trimQuotes l ++ b ∧ (∀ c ∈ a, c = '"') ∧ (∀ c ∈ b, c = '"')) ∧
      (∀ c, (trimQuotes l).head? = some c → c ≠ '"') ∧
      (∀ c, (trimQuotes l).getLast? = some c → c ≠ '"') := by
    intro l
    obtain ⟨⟨a, b, hab, ha, hb⟩, hh, hl⟩ := trimBoth_spec (fun c => c == '"') l
    refine ⟨⟨a, b, hab, fun c hc => by simpa using ha c hc,
      fun c hc => by simpa using hb c hc⟩, ?_, ?_⟩
    · intro c hc
      simpa using hh c hc
    · intro c hc
      simpa using hl c hc
  refine ⟨parseEnv_eq content, ?_, ?_, hspec, htest, ?_, fun l => trimBoth_spec isSpace l,
    hquote, by decide, splitLines_append, splitLines_single, hspaced, hone⟩
  · intro line h
    unfold lineEntry
    simp [lineEntry_hash line h]
  · intro a line b hnl hno
    have hnone : lineEntry line.data = none := by
      unfold lineEntry
      rw [if_pos hno]
    have hd : ("\n" : String).data = ['\n'] := rfl
    have e1 : (a ++ "\n" ++ line ++ "\n" ++ b).data =
        a.data ++ '\n' :: (line.data ++ '\n' :: b.data) := by
      simp [String.data_append, hd]
    have e2 : (a ++ "\n" ++ b).data = a.data ++ '\n' :: b.data := by
      simp [String.data_append, hd]
    have e3 : (line ++ "\n" ++ b).data = line.data ++ '\n' :: b.data := by
      simp [String.data_append, hd]
    have e4 : (a ++ "\n" ++ line).data = a.data ++ '\n' :: line.data := by
      simp [String.data_append, hd]
    have hs := splitLines_single _ hnl
    refine ⟨?_, ?_, ?_⟩
    · rw [parseEnv_eq, parseEnv_eq, e1, e2, splitLines_append, splitLines_append,
        splitLines_append, hs]
      simp [List.filterMap_append, hnone]
    · rw [parseEnv_eq, parseEnv_eq, e3, splitLines_append, hs]
      simp [hnone]
    · rw [parseEnv_eq, parseEnv_eq, e4, splitLines_append, hs]
      simp [List.filterMap_append, hnone]
  · intro k
    rw [hspec]
    unfold EnvMap.at
    by_cases h1 : k = "PORKBUN_SECRET_KEY"
    · subst h1; rfl
    · by_cases h2 : k = "PORKBUN_API_KEY"
      · subst h2; rfl
      · have hb1 : (k == "PORKBUN_SECRET_KEY") = false := by simp [h1]
        have hb2 : (k == "PORKBUN_API_KEY") = false := by simp [h2]
        simp [List.lookup, hb1, hb2, h1, h2]

/-- C8, instances: deleting the line `IGNORED`, which has no `=`, from the
credential example does not change the result; deleting an indented comment
that contains `=` from a text with blanks does not either. -/
theorem parseEnv_spec_witness :
    parseEnv ("PORKBUN_API_KEY=\"pk_live\"\nPORKBUN_SECRET_KEY=sk_live" ++ "\n" ++ "IGNORED") =
      parseEnv "PORKBUN_API_KEY=\"pk_live\"\nPORKBUN_SECRET_KEY=sk_live" ∧
    parseEnv ("  KEY = value  " ++ "\n" ++ "   # note=1" ++ "\n" ++ " NAME =\t\"quoted value\" ") =
      parseEnv ("  KEY = value  " ++ "\n" ++ " NAME =\t\"quoted value\" ") :=
  ⟨((parseEnv_spec "").2.2.1 "PORKBUN_API_KEY=\"pk_live\"\nPORKBUN_SECRET_KEY=sk_live"
    "IGNORED" "" (by decide) (Or.inr (Or.inr (by decide)))).2.2,
   ((parseEnv_spec "").2.2.1 "  KEY = value  " "   # note=1" " NAME =\t\"quoted value\" "
    (by decide) (Or.inr (Or.inl (by decide)))).1⟩

/-! ### The reference library meets the contract of `sort.Slice` -/

lemma dropWhile_head_false {α : Type} (p : α → Bool) (l : List α) (d : α) (r : List α)
    (h : l.dropWhile p = d :: r) : p d = false := by
  induction l with
  | nil => simp at h
  | cons a as ih =>
    rw [List.dropWhile_cons] at h
    by_cases hp : p a = true
    · rw [if_pos hp] at h
      exact ih h
    · rw [if_neg hp] at h
      injection h with h1 _
      rw [← h1]
      simpa using hp

lemma insertRight_perm {α : Type} (less : α → α → Bool) (p : List α) (x : α) :
    (insertRight less p x).Perm (x :: p) := by
  unfold insertRight
  have h := List.takeWhile_append_dropWhile (fun y => less x y) p.reverse
  have h1 : ((List.dropWhile (fun y => less x y) p.reverse).reverse ++
      x :: (List.takeWhile (fun y => less x y) p.reverse).reverse).Perm
      (x :: ((List.takeWhile (fun y => less x y) p.reverse) ++
        (List.dropWhile (fun y => less x y) p.reverse))) := by
    refine List.Perm.trans List.perm_middle ?_
    refine List.Perm.cons x ?_
    refine List.Perm.trans List.perm_append_comm ?_
    exact List.Perm.append (List.reverse_perm _) (List.reverse_perm _)
  rw [h] at h1
  exact h1.trans (List.Perm.cons x (List.reverse_perm p))

lemma goInsertionSort_foldl_perm {α : Type} (less : α → α → Bool) (xs acc : List α) :
    (xs.foldl (insertRight less) acc).Perm (acc ++ xs) := by
  induction xs generalizing acc with
  | nil => simp
  | cons x xs ih =>
    rw [List.foldl_cons]
    refine (ih _).trans ?_
    refine List.Perm.trans (List.Perm.append_right xs (insertRight_perm less acc x)) ?_
    simpa using (@List.perm_middle _ x acc xs).symm

lemma goInsertionSort_perm {α : Type} (less : α → α → Bool) (xs : List α) :
    (goInsertionSort less xs).Perm xs := by
  simpa [goInsertionSort] using goInsertionSort_foldl_perm less xs []

/-- In a strict weak ordering, `x < d` forces `x < z` or `z < d` for every `z`. -/
lemma StrictWeakOn.cotrans {α : Type} {less : α → α → Bool} {xs : List α}
    (h : StrictWeakOn less xs) {x z d : α} (hx : x ∈ xs) (hz : z ∈ xs) (hd : d ∈ xs)
    (hxd : less x d = true) (hxz : less x z = false) (hzd : less z d = false) : False := by
  obtain ⟨hirr, htr, hinc⟩ := h
  have hzx : less z x = false := by
    cases hc : less z x with
    | false => rfl
    | true => rw [htr z hz x hx d hd hc hxd] at hzd; exact absurd hzd (by simp)
  have hdz : less d z = false := by
    cases hc : less d z with
    | false => rfl
    | true => rw [htr x hx d hd z hz hxd hc] at hxz; exact absurd hxz (by simp)
  have := (hinc x hx z hz d hd hxz hzx hzd hdz).1
  rw [hxd] at this
  exact absurd this (by simp)

lemma StrictWeakOn.asymm {α : Type} {less : α → α → Bool} {xs : List α}
    (h : StrictWeakOn less xs) {x y : α} (hx : x ∈ xs) (hy : y ∈ xs)
    (hxy : less x y = true) : less y x = false := by
  cases hc : less y x with
  | false => rfl
  | true =>
    have := h.2.1 x hx y hy x hx hxy hc
    rw [h.1 x hx] at this
    exact absurd this (by simp)

/-- Insertion keeps a descending list descending (the reversed sorted prefix). -/
lemma insert_descending {α : Type} (less : α → α → Bool) (xs : List α)
    (h : StrictWeakOn less xs) (rp : List α) (x : α) (hx : x ∈ xs)
    (hrp : ∀ y ∈ rp, y ∈ xs) (hs : rp.Pairwise (fun a b => less a b = false)) :
    (rp.takeWhile (fun y => less x y) ++ x :: rp.dropWhile (fun y => less x y)).Pairwise
      (fun a b => less a b = false) := by
  have hsplit := List.takeWhile_append_dropWhile (fun y => less x y) rp
  rw [← hsplit] at hs
  obtain ⟨htw, hdw, hcross⟩ := List.pairwise_append.mp hs
  have hmem_tw : ∀ y ∈ rp.takeWhile (fun y => less x y), y ∈ xs := fun y hy =>
    hrp y ((List.takeWhile_sublist _).subset hy)
  have hmem_dw : ∀ y ∈ rp.dropWhile (fun y => less x y), y ∈ xs := fun y hy =>
    hrp y ((List.dropWhile_sublist _).subset hy)
  rw [List.pairwise_append]
  refine ⟨htw, ?_, ?_⟩
  · rw [List.pairwise_cons]
    refine ⟨?_, hdw⟩
    intro d hd
    cases hdw' : rp.dropWhile (fun y => less x y) with
    | nil => rw [hdw'] at hd; simp at hd
    | cons d0 rest =>
      have hd0 : less x d0 = false := dropWhile_head_false _ _ _ _ hdw'
      rw [hdw'] at hd hdw
      rcases List.mem_cons.mp hd with h1 | h1
      · rw [h1]; exact hd0
      · have hd0d : less d0 d = false := (List.pairwise_cons.mp hdw).1 d h1
        cases hc : less x d with
        | false => rfl
        | true =>
          exact (h.cotrans hx (hmem_dw d0 (by simp [hdw'])) (hmem_dw d (by simp [hdw', h1]))
            hc hd0 hd0d).elim
  · intro y hy b hb
    rcases List.mem_cons.mp hb with h1 | h1
    · rw [h1]
      exact h.asymm hx (hmem_tw y hy) (List.mem_takeWhile_imp hy)
    · exact hcross y hy b h1

lemma insertRight_sorted {α : Type} (less : α → α → Bool) (xs : List α)
    (h : StrictWeakOn less xs) (p : List α) (x : α) (hx : x ∈ xs)
    (hp : ∀ y ∈ p, y ∈ xs) (hs : p.Pairwise (fun a b => less b a = false)) :
    (insertRight less p x).Pairwise (fun a b => less b a = false) := by
  have h1 := insert_descending less xs h p.reverse x hx
    (fun y hy => hp y (List.mem_reverse.mp hy)) (List.pairwise_reverse.mpr hs)
  have h2 := List.pairwise_reverse.mpr h1
  unfold insertRight
  simpa using h2

lemma goInsertionSort_foldl_sorted {α : Type} (less : α → α → Bool) (xs : List α)
    (h : StrictWeakOn less xs) (ys acc : List α) (hys : ∀ y ∈ ys, y ∈ xs)
    (hacc : ∀ y ∈ acc, y ∈ xs) (hs : acc.Pairwise (fun a b => less b a = false)) :
    (ys.foldl (insertRight less) acc).Pairwise (fun a b => less b a = false) := by
  induction ys generalizing acc with
  | nil => simpa using hs
  | cons y ys ih =>
    rw [List.foldl_cons]
    apply ih _ (fun z hz => hys z (List.mem_cons_of_mem _ hz))
    · intro z hz
      rcases List.mem_cons.mp ((insertRight_perm less acc y).mem_iff.mp hz) with h1 | h1
      · rw [h1]; exact hys y (by simp)
      · exact hacc z h1
    · exact insertRight_sorted less xs h acc y (hys y (by simp)) hacc hs

/-- The reference library meets the documented contract of `sort.Slice`. -/
lemma refStd_sortSliceSpec : SortSliceSpec refStd := by
  intro α less xs
  refine ⟨goInsertionSort_perm less xs, ?_⟩
  intro h
  exact goInsertionSort_foldl_sorted less xs h xs [] (fun y hy => hy) (by simp) List.Pairwise.nil

/-! ### `loadKeys` -/

lemma firstReadable_noFiles (cs : List String) : firstReadable noFiles cs = none := by
  induction cs with
  | nil => rfl
  | cons c cs ih => simp [firstReadable, noFiles, ih]

/-- C9, the code at the input of `TestLoadKeysPrefersEnvironment`: `loadKeys`
never reads `PORKBUN_API_KEY` or `PORKBUN_SECRET_KEY` from the environment.
When no candidate file can be read it fails with the no-env-file error
whatever the environment holds, and when a fallback file exists its keys are
returned, not those of the environment. -/
theorem loadKeys_ignores_environment :
    (∀ (L : Std) (getenv : String → String),
      loadKeys L getenv noFiles = Except.error
        "no env file found; set PORKCTL_ENV_FILE or create C:/dev/_env/secrets/porkbun.env") ∧
    loadKeys refStd testGetenv noFiles = Except.error
      "no env file found; set PORKCTL_ENV_FILE or create C:/dev/_env/secrets/porkbun.env" ∧
    loadKeys refStd testGetenv oneFile =
      Except.ok { APIKey := "file_pk", SecretKey := "file_sk" } := by
  have h : ∀ (L : Std) (getenv : String → String),
      loadKeys L getenv noFiles = Except.error
        "no env file found; set PORKCTL_ENV_FILE or create C:/dev/_env/secrets/porkbun.env" := by
    intro L getenv
    unfold loadKeys
    rw [firstReadable_noFiles]
    rfl
  exact ⟨h, h _ _, rfl⟩

/-! ### `runCheck` -/

/-- C10, as stated, fails: when the availability request fails, `runCheck`
returns `nil` and the command exits with status 0. -/
theorem runCheck_failure_counterexample :
    (runCheck refStd "clau.de" (Except.error "request failed")).2 = none ∧
    (mainCheck refStd "clau.de" (Except.error "request failed")).2 = 0 := by
  exact ⟨rfl, rfl⟩

/-- C10, amended: when the availability request made by `runCheck` fails with
error `err`, `runCheck` itself prints `DOMAIN: <domain>` and `ERROR: <err>` and
returns `nil`, so `main` prints nothing more and the process exits with
status 0. -/
theorem runCheck_failure_reported_inline (L : Std) (domain err : String) :
    runCheck L domain (Except.error err) =
      (["DOMAIN: " ++ domain, "ERROR: " ++ err], none) ∧
    mainCheck L domain (Except.error err) =
      (["DOMAIN: " ++ domain, "ERROR: " ++ err], 0) := by
  exact ⟨rfl, rfl⟩

/-! ### `runRegister` -/

/-- When the check succeeds, the domain is available and the price parses,
`runRegister` makes the availability request and then the create request
carrying `costCents`. -/
lemma runRegister_sends_create (L : Std) (post : String → JObj → Except String JObj)
    (domain : String) (data : JObj)
    (hp : post ("/domain/checkDomain/" ++ domain) [] = Except.ok data)
    (ha : (parseCheckResponse L data).1 = true)
    (hf : (L.parseFloat (parseCheckResponse L data).2.1).2 = true) :
    (runRegister L post domain).requests =
      [checkRequest domain,
        createRequest domain
          (costCents L (L.parseFloat (parseCheckResponse L data).2.1).1 (minDuration L data))] := by
  rcases h : parseCheckResponse L data with ⟨a, p, r⟩
  rw [h] at ha hf
  simp only at ha hf
  simp only [runRegister, hp, h, ha, hf, checkRequest, createRequest]
  cases post ("/domain/create/" ++ domain)
      [("cost", JVal.int (costCents L (L.parseFloat p).1 (minDuration L data))),
        ("agreeToTerms", JVal.str "yes")] with
  | error e => simp
  | ok regData =>
    by_cases hs : L.equalFold (asString L (index regData "status")) "SUCCESS" = true <;>
      simp [hs]

/-- C2, as stated, fails: the register price `NaN` is not a decimal number, but
`strconv.ParseFloat` accepts it (its value is NaN), so for an available domain
with that price `runRegister` sends the create request, carrying the `int64`
conversion of NaN as cost, and returns no error. -/
theorem runRegister_nan_price_counterexample :
    refStd.parseFloat "NaN" = (F64.nan, true) ∧
    (parseCheckResponse refStd (pricedResponse "NaN")).2.1 = "NaN" ∧
    (runRegister refStd (fun _ _ => Except.ok (pricedResponse "NaN")) "clau.de").requests =
      [checkRequest "clau.de", createRequest "clau.de" (-2 ^ 63)] ∧
    (runRegister refStd (fun _ _ => Except.ok (pricedResponse "NaN")) "clau.de").err = none := by
  exact ⟨rfl, rfl, rfl, rfl⟩

/-- C2, amended: whatever the availability check returns, `runRegister` sends
the domain-create request only when `parseCheckResponse` reports the domain
available and `strconv.ParseFloat` accepts the register price (a decimal
numeral, but also `NaN` or an infinity). A failed check returns its error; a
domain that is not available returns `domain unavailable`; an available domain
whose price `ParseFloat` rejects (such as the sentinel `-`) returns the
invalid-registration-price error; in all three cases the availability request
is the only request made. -/
theorem runRegister_gate (L : Std) (post : String → JObj → Except String JObj)
    (domain : String) :
    (∀ e, post ("/domain/checkDomain/" ++ domain) [] = Except.error e →
      (runRegister L post domain).requests = [checkRequest domain] ∧
      (runRegister L post domain).err = some e) ∧
    (∀ data, post ("/domain/checkDomain/" ++ domain) [] = Except.ok data →
      (parseCheckResponse L data).1 = false →
      (runRegister L post domain).requests = [checkRequest domain] ∧
      (runRegister L post domain).err = some "domain unavailable") ∧
    (∀ data, post ("/domain/checkDomain/" ++ domain) [] = Except.ok data →
      (parseCheckResponse L data).1 = true →
      (L.parseFloat (parseCheckResponse L data).2.1).2 = false →
      (runRegister L post domain).requests = [checkRequest domain] ∧
      (runRegister L post domain).err =
        some ("invalid registration price " ++ L.quote (parseCheckResponse L data).2.1)) ∧
    (∀ data, post ("/domain/checkDomain/" ++ domain) [] = Except.ok data →
      (parseCheckResponse L data).1 = true →
      (parseCheckResponse L data).2.1 = "-" → (L.parseFloat "-").2 = false →
      (runRegister L post domain).requests = [checkRequest domain] ∧
      (runRegister L post domain).err = some ("invalid registration price " ++ L.quote "-")) ∧
    (∀ data, post ("/domain/checkDomain/" ++ domain) [] = Except.ok data →
      (parseCheckResponse L data).1 = true →
      (L.parseFloat (parseCheckResponse L data).2.1).2 = true →
      (runRegister L post domain).requests =
        [checkRequest domain,
          createRequest domain
            (costCents L (L.parseFloat (parseCheckResponse L data).2.1).1 (minDuration L data))]) ∧
    ((runRegister L post domain).requests ≠ [checkRequest domain] →
      ∃ data, post ("/domain/checkDomain/" ++ domain) [] = Except.ok data ∧
        (parseCheckResponse L data).1 = true ∧
        (L.parseFloat (parseCheckResponse L data).2.1).2 = true) := by
  have hbad : ∀ data, post ("/domain/checkDomain/" ++ domain) [] = Except.ok data →
      (parseCheckResponse L data).1 = true →
      (L.parseFloat (parseCheckResponse L data).2.1).2 = false →
      (runRegister L post domain).requests = [checkRequest domain] ∧
      (runRegister L post domain).err =
        some ("invalid registration price " ++ L.quote (parseCheckResponse L data).2.1) := by
    intro data hp ha hf
    rcases h : parseCheckResponse L data with ⟨a, p, r⟩
    rw [h] at ha hf
    simp only at ha hf
    simp [runRegister, hp, h, ha, hf, checkRequest]
  have hunav : ∀ data, post ("/domain/checkDomain/" ++ domain) [] = Except.ok data →
      (parseCheckResponse L data).1 = false →
      (runRegister L post domain).requests = [checkRequest domain] ∧
      (runRegister L post domain).err = some "domain unavailable" := by
    intro data hp ha
    rcases h : parseCheckResponse L data with ⟨a, p, r⟩
    rw [h] at ha
    simp only at ha
    simp [runRegister, hp, h, ha, checkRequest]
  have herr : ∀ e, post ("/domain/checkDomain/" ++ domain) [] = Except.error e →
      (runRegister L post domain).requests = [checkRequest domain] ∧
      (runRegister L post domain).err = some e := by
    intro e hp
    simp [runRegister, hp, checkRequest]
  refine ⟨herr, hunav, hbad, ?_, ?_, ?_⟩
  · intro data hp ha hdash hf
    have := hbad data hp ha (by rw [hdash]; exact hf)
    rw [hdash] at this
    exact this
  · intro data hp ha hf
    exact runRegister_sends_create L post domain data hp ha hf
  · intro hne
    cases hp : post ("/domain/checkDomain/" ++ domain) [] with
    | error e => exact absurd (herr e hp).1 hne
    | ok data =>
      refine ⟨data, rfl, ?_⟩
      cases ha : (parseCheckResponse L data).1 with
      | false => exact absurd (hunav data hp ha).1 hne
      | true =>
        refine ⟨rfl, ?_⟩
        cases hf : (L.parseFloat (parseCheckResponse L data).2.1).2 with
        | false => exact absurd (hbad data hp ha hf).1 hne
        | true => rfl

/-- C2, instance: an available domain whose response carries no price has the
register price `-`, which does not parse; no create request is sent. -/
theorem runRegister_gate_witness :
    (runRegister refStd (fun _ _ => Except.ok noPriceResponse) "clau.de").requests =
        [checkRequest "clau.de"] ∧
    (runRegister refStd (fun _ _ => Except.ok noPriceResponse) "clau.de").err =
        some ("invalid registration price " ++ refStd.quote "-") :=
  (runRegister_gate refStd (fun _ _ => Except.ok noPriceResponse) "clau.de").2.2.2.1
    noPriceResponse rfl rfl rfl rfl

/-! ### `runCheckBulk` -/

lemma bulkResults_getElem? (L : Std) (post : Nat → String → Except String JObj)
    (domains : List String) (i : Nat) :
    (bulkResults L post domains)[i]? =
      (domains[i]?).map (fun d => bulkRow L d (post i ("/domain/checkDomain/" ++ d))) := by
  unfold bulkResults
  rw [List.getElem?_map, List.getElem?_enum]
  cases domains[i]? <;> rfl

lemma bulkResults_domains (L : Std) (post : Nat → String → Except String JObj)
    (domains : List String) :
    (bulkResults L post domains).map bulkResult.Domain = domains := by
  apply List.ext_getElem?
  intro i
  rw [List.getElem?_map, bulkResults_getElem?]
  cases h : domains[i]? with
  | none => rfl
  | some d =>
    simp only [Option.map_some']
    unfold bulkRow
    cases post i ("/domain/checkDomain/" ++ d) <;> rfl

/-- C4: for every list of domains and every combination of lookup outcomes,
`runCheckBulk` reports exactly one row per input domain (the rows are a
permutation of the rows built in input order, and their domains a permutation
of the input), the row of a failed lookup is `Available=false`, `Price=error`,
`Renewal=error`, the row of a successful lookup carries the values of
`parseCheckResponse`, and no error is returned. -/
theorem runCheckBulk_rows (L : Std) (hs : SortSliceSpec L)
    (post : Nat → String → Except String JObj) (domains : List String) :
    (runCheckBulk L post domains).1.Perm (bulkResults L post domains) ∧
    ((runCheckBulk L post domains).1.map bulkResult.Domain).Perm domains ∧
    (runCheckBulk L post domains).1.length = domains.length ∧
    (bulkResults L post domains).length = domains.length ∧
    (∀ i d, domains[i]? = some d →
      (∀ e, post i ("/domain/checkDomain/" ++ d) = Except.error e →
        (bulkResults L post domains)[i]? =
          some { Domain := d, Available := false, Price := "error", Renewal := "error" }) ∧
      (∀ data, post i ("/domain/checkDomain/" ++ d) = Except.ok data →
        (bulkResults L post domains)[i]? =
          some { Domain := d, Available := (parseCheckResponse L data).1,
                 Price := (parseCheckResponse L data).2.1,
                 Renewal := (parseCheckResponse L data).2.2 })) ∧
    (runCheckBulk L post domains).2.2 = none := by
  have hperm : (runCheckBulk L post domains).1.Perm (bulkResults L post domains) :=
    (hs bulkResult bulkLess (bulkResults L post domains)).1
  have hlen : (bulkResults L post domains).length = domains.length := by
    simp [bulkResults]
  refine ⟨hperm, ?_, ?_, hlen, ?_, rfl⟩
  · have := hperm.map bulkResult.Domain
    rwa [bulkResults_domains] at this
  · rw [hperm.length_eq, hlen]
  · intro i d hd
    refine ⟨?_, ?_⟩
    · intro e he
      rw [bulkResults_getElem?, hd]
      simp [bulkRow, he]
    · intro data hdata
      rw [bulkResults_getElem?, hd]
      simp [bulkRow, hdata]

/-- C4, instance: two domains, the first lookup succeeding and the second
failing; the second row built is the error row. -/
theorem runCheckBulk_rows_witness :
    (bulkResults refStd firstOnlyPost ["clau.de", "example.com"])[1]? =
      some { Domain := "example.com", Available := false, Price := "error", Renewal := "error" } :=
  ((runCheckBulk_rows refStd refStd_sortSliceSpec firstOnlyPost
    ["clau.de", "example.com"]).2.2.2.2.1 1 "example.com" rfl).1 "request failed" rfl

lemma bulkLess_strictWeak (xs : List bulkResult) : StrictWeakOn bulkLess xs := by
  refine ⟨?_, ?_, ?_⟩
  · intro a _
    simp [bulkLess]
  · intro a _ b _ c _ hab hbc
    unfold bulkLess at *
    cases ha : a.Available <;> cases hb : b.Available <;> cases hc : c.Available <;>
      simp_all <;> omega
  · intro a _ b _ c _ hab hba hbc hcb
    unfold bulkLess at *
    cases ha : a.Available <;> cases hb : b.Available <;> cases hc : c.Available <;>
      simp_all <;> omega

set_option maxRecDepth 100000 in
/-- C5, as stated, fails: `sort.Slice` is not a stable sort. For thirteen
domains whose lookups all fail, twelve of five bytes followed by one of four,
`sort.Slice` chooses the seventh row as pivot, finds the slice unsorted, and
partitions: it swaps the pivot with the first row, then the second row with the
last, then the pivot back; the two remaining ranges are sorted by insertion
and do not move. The twelve rows of equal key end in the order `g.com`, `c.com`,
`d.com`, `e.com`, `f.com`, `a.com`, ..., `l.com`, `b.com`, while the stable sort
keeps them in input order. -/
theorem bulk_order_stable_counterexample :
    (runCheckBulk pdqStd failingPost thirteenDomains).1.map bulkResult.Domain =
      ["z.io", "g.com", "c.com", "d.com", "e.com", "f.com", "a.com", "h.com", "i.com",
       "j.com", "k.com", "l.com", "b.com"] ∧
    (stableBulkOrder (bulkResults pdqStd failingPost thirteenDomains)).map
      bulkResult.Domain =
      ["z.io", "a.com", "b.com", "c.com", "d.com", "e.com", "f.com", "g.com", "h.com",
       "i.com", "j.com", "k.com", "l.com"] ∧
    (runCheckBulk pdqStd failingPost thirteenDomains).1 ≠
      stableBulkOrder (bulkResults pdqStd failingPost thirteenDomains) ∧
    choosePivot bulkLess (bulkResults pdqStd failingPost thirteenDomains) 0 13 =
      (6, sortedHint.increasingHint) ∧
    (partialInsertionSort bulkLess (bulkResults pdqStd failingPost thirteenDomains) 0 13).2 =
      false ∧
    (partition bulkLess (bulkResults pdqStd failingPost thirteenDomains) 0 13 6).2 =
      (1, false) ∧
    (partition bulkLess (bulkResults pdqStd failingPost thirteenDomains) 0 13 6).1.map
      bulkResult.Domain =
      ["z.io", "g.com", "c.com", "d.com", "e.com", "f.com", "a.com", "h.com", "i.com",
       "j.com", "k.com", "l.com", "b.com"] := by
  refine ⟨by decide, by decide, by decide, by decide, by decide, by decide, by decide⟩

/-- C5, amended: for every sorting function that meets the contract of
`sort.Slice`, the rows `runCheckBulk` reports are a permutation of the results
in which no later row is less than an earlier one in the composite key: every
available row precedes every unavailable row, and within each availability
group the domain-name lengths are non-decreasing. The relative order of rows
with the same availability and the same length is not determined. -/
theorem bulk_order_sorted (L : Std) (hs : SortSliceSpec L)
    (post : Nat → String → Except String JObj) (domains : List String) :
    (runCheckBulk L post domains).1.Perm (bulkResults L post domains) ∧
    (runCheckBulk L post domains).1.Pairwise (fun a b =>
      (b.Available = true → a.Available = true) ∧
      (a.Available = b.Available → a.Domain.utf8ByteSize ≤ b.Domain.utf8ByteSize)) := by
  obtain ⟨hperm, hsorted⟩ := hs bulkResult bulkLess (bulkResults L post domains)
  refine ⟨hperm, ?_⟩
  refine (hsorted (bulkLess_strictWeak _)).imp ?_
  intro a b hab
  unfold bulkLess at hab
  cases ha : a.Available <;> cases hb : b.Available <;> simp_all

/-- C5, instance: with the reference library, a short available domain is
reported before a longer unavailable one listed first. -/
theorem bulk_order_sorted_witness :
    (runCheckBulk refStd (fun i _ => if i = 1 then Except.ok testResponse
        else Except.error "request failed") ["example.com", "a.io"]).1.Pairwise (fun a b =>
      (b.Available = true → a.Available = true) ∧
      (a.Available = b.Available → a.Domain.utf8ByteSize ≤ b.Domain.utf8ByteSize)) :=
  (bulk_order_sorted refStd refStd_sortSliceSpec _ _).2

/-! ### `runPricing` -/


lemma F64.lt_fin_iff (n1 : Bool) (m1 : Nat) (e1 : Int) (n2 : Bool) (m2 : Nat) (e2 : Int) :
    F64.lt (F64.fin n1 m1 e1) (F64.fin n2 m2 e2) = true ↔
      F64.val n1 m1 e1 < F64.val n2 m2 e2 := by
  have h2 : (0 : ℚ) < 2 := by norm_num
  have hpos : (0 : ℚ) < (2 : ℚ) ^ (min e1 e2) := zpow_pos h2 _
  have hk1 : (0 : Int) ≤ e1 - min e1 e2 := by omega
  have hk2 : (0 : Int) ≤ e2 - min e1 e2 := by omega
  have c1 : ((2 : ℚ) ^ (e1 - min e1 e2).toNat) * (2 : ℚ) ^ (min e1 e2) = (2 : ℚ) ^ e1 := by
    rw [← zpow_natCast, Int.toNat_of_nonneg hk1, ← zpow_add₀ (ne_of_gt h2)]
    congr 1
    omega
  have c2 : ((2 : ℚ) ^ (e2 - min e1 e2).toNat) * (2 : ℚ) ^ (min e1 e2) = (2 : ℚ) ^ e2 := by
    rw [← zpow_natCast, Int.toNat_of_nonneg hk2, ← zpow_add₀ (ne_of_gt h2)]
    congr 1
    omega
  unfold F64.lt F64.val
  simp only [decide_eq_true_eq]
  rw [← c1, ← c2, ← mul_assoc, ← mul_assoc, mul_lt_mul_right hpos]
  rw [← @Int.cast_lt ℚ]
  push_cast
  rfl

lemma F64.lt_iff_key (x y : F64) (hx : x ≠ F64.nan) (hy : y ≠ F64.nan) :
    F64.lt x y = true ↔ F64.key x < F64.key y := by
  have htop : ∀ q : ℚ, (((q : WithTop ℚ)) : WithBot (WithTop ℚ)) <
      ((⊤ : WithTop ℚ) : WithBot (WithTop ℚ)) :=
    fun q => WithBot.coe_lt_coe.mpr (WithTop.coe_lt_top q)
  have hbot : ∀ z : WithTop ℚ, (⊥ : WithBot (WithTop ℚ)) < (z : WithBot (WithTop ℚ)) :=
    fun z => WithBot.bot_lt_coe z
  cases x with
  | nan => exact absurd rfl hx
  | inf n1 =>
    cases y with
    | nan => exact absurd rfl hy
    | inf n2 =>
      cases n1 <;> cases n2
      · simp [F64.lt, F64.key]
      · simp [F64.lt, F64.key]
      · exact ⟨fun _ => hbot ⊤, fun _ => rfl⟩
      · simp [F64.lt, F64.key]
    | fin n2 m2 e2 =>
      cases n1
      · exact ⟨fun h => absurd h (by simp [F64.lt]),
          fun h => absurd h (not_lt.mpr (le_of_lt (htop (F64.val n2 m2 e2))))⟩
      · exact ⟨fun _ => hbot _, fun _ => rfl⟩
  | fin n1 m1 e1 =>
    cases y with
    | nan => exact absurd rfl hy
    | inf n2 =>
      cases n2
      · exact ⟨fun _ => htop _, fun _ => rfl⟩
      · simp [F64.lt, F64.key]
    | fin n2 m2 e2 =>
      rw [F64.lt_fin_iff]
      simp [F64.key]

lemma rowLess_strictWeak (rows : List row) (h : ∀ r ∈ rows, r.RegNum ≠ F64.nan) :
    StrictWeakOn rowLess rows := by
  have hk : ∀ a ∈ rows, ∀ b ∈ rows,
      (rowLess a b = true ↔ F64.key a.RegNum < F64.key b.RegNum) :=
    fun a ha b hb => F64.lt_iff_key _ _ (h a ha) (h b hb)
  have hkf : ∀ a ∈ rows, ∀ b ∈ rows,
      (rowLess a b = false ↔ F64.key b.RegNum ≤ F64.key a.RegNum) := by
    intro a ha b hb
    rw [← not_lt, ← hk a ha b hb]
    simp
  refine ⟨?_, ?_, ?_⟩
  · intro a ha
    rw [hkf a ha a ha]
  · intro a ha b hb c hc hab hbc
    rw [hk a ha b hb] at hab
    rw [hk b hb c hc] at hbc
    rw [hk a ha c hc]
    exact lt_trans hab hbc
  · intro a ha b hb c hc hab hba hbc hcb
    rw [hkf a ha b hb] at hab
    rw [hkf b hb a ha] at hba
    rw [hkf b hb c hc] at hbc
    rw [hkf c hc b hb] at hcb
    rw [hkf a ha c hc, hkf c hc a ha]
    exact ⟨le_trans hbc hab, le_trans hba hcb⟩

/-- C7, as stated, fails: a registration price `NaN` parses (to NaN), compares
false with everything, and `sort.Slice` (insertion sort on three rows) leaves
the rows as `range` visited them: price 2, then NaN, then 1. The listing is not
in non-decreasing order, since the last row is cheaper than the first. -/
theorem pricing_order_counterexample :
    SortSliceSpec refStd ∧
    listedPrices (runPricing refStd (Except.ok nanPricingResponse)) =
      [("aaa", F64.fin false 4503599627370496 (-51)), ("bbb", F64.nan),
       ("ccc", F64.fin false 4503599627370496 (-52))] ∧
    F64.lt (F64.fin false 4503599627370496 (-52)) (F64.fin false 4503599627370496 (-51)) = true ∧
    ¬ (listedPrices (runPricing refStd (Except.ok nanPricingResponse))).Pairwise
      (fun a b => F64.lt b.2 a.2 = false) := by
  refine ⟨refStd_sortSliceSpec, by decide, by decide, by decide⟩

/-- C7, amended: the rows `runPricing` lists number at most 50 and are, with the
rows left out, a permutation of the rows of the object-valued entries; when no
registration price parses to NaN, they are in non-decreasing order of numeric
registration price and every row left out has a numeric registration price no
smaller than that of every listed row. -/
theorem runPricing_listing (L : Std) (hs : SortSliceSpec L) (res : Except String JObj)
    (rows : List row) (hr : runPricing L res = Except.ok rows) :
    rows.length ≤ 50 ∧
    ∃ data pricing dropped, res = Except.ok data ∧
      asMap (index data "pricing") = some pricing ∧
      (rows ++ dropped).Perm (pricing.filterMap (pricingRow L)) ∧
      ((∀ r ∈ pricing.filterMap (pricingRow L), r.RegNum ≠ F64.nan) →
        rows.Pairwise (fun a b => F64.lt b.RegNum a.RegNum = false) ∧
        ∀ a ∈ rows, ∀ b ∈ dropped, F64.lt b.RegNum a.RegNum = false) := by
  cases res with
  | error e => simp [runPricing] at hr
  | ok data =>
    unfold runPricing at hr
    simp only at hr
    by_cases hst : L.equalFold (asString L (index data "status")) "SUCCESS" = true
    · simp only [hst, Bool.not_true, Bool.false_eq_true, if_false] at hr
      cases hp : asMap (index data "pricing") with
      | none => simp [hp] at hr
      | some pricing =>
        simp only [hp] at hr
        have hrows : rows = (L.sortSlice rowLess (pricing.filterMap (pricingRow L))).take 50 := by
          have h1 := Except.ok.inj hr
          rw [← h1]
          split
          · rfl
          · rw [List.take_of_length_le (by omega)]
        obtain ⟨hperm, hsorted⟩ := hs row rowLess (pricing.filterMap (pricingRow L))
        refine ⟨by rw [hrows]; exact List.length_take_le _ _, data, pricing,
          (L.sortSlice rowLess (pricing.filterMap (pricingRow L))).drop 50, rfl, hp, ?_, ?_⟩
        · rw [hrows, List.take_append_drop]
          exact hperm
        · intro hnan
          have hs2 := hsorted (rowLess_strictWeak _ hnan)
          rw [← List.take_append_drop 50
            (L.sortSlice rowLess (pricing.filterMap (pricingRow L)))] at hs2
          obtain ⟨h1, _, h3⟩ := List.pairwise_append.mp hs2
          rw [hrows]
          exact ⟨h1, h3⟩
    · simp [hst] at hr

/-- C7, instance: a pricing map with two TLDs and one entry that is not an
object lists `de` (4.50) before `com` (9.68). -/
theorem runPricing_listing_witness :
    runPricing refStd (Except.ok smallPricingResponse) =
      Except.ok [{ TLD := "de", Register := "4.50", Renewal := "4.50",
                   RegNum := F64.fin false 5066549580791808 (-50) },
                 { TLD := "com", Register := "9.68", Renewal := "10.18",
                   RegNum := F64.fin false 5449355549118300 (-49) }] ∧
    [({ TLD := "de", Register := "4.50", Renewal := "4.50",
        RegNum := F64.fin false 5066549580791808 (-50) } : row),
      { TLD := "com", Register := "9.68", Renewal := "10.18",
        RegNum := F64.fin false 5449355549118300 (-49) }].length ≤ 50 :=
  ⟨rfl, (runPricing_listing refStd refStd_sortSliceSpec (Except.ok smallPricingResponse) _ rfl).1⟩

/-! ### The registration cost -/

lemma F64.toInt64_eq_floor (L : Std) (m : Nat) (e : Int)
    (h : F64.val false m e < 2 ^ 63) :
    F64.toInt64 L (F64.fin false m e) = ⌊F64.val false m e⌋ := by
  have h2 : (0 : ℚ) < 2 := by norm_num
  unfold F64.val F64.signed at h
  simp only [Bool.false_eq_true, if_false] at h
  unfold F64.toInt64 F64.val F64.signed
  simp only [Bool.false_eq_true, if_false]
  by_cases he : 0 ≤ e
  · have hv : ((m : ℤ) : ℚ) * (2 : ℚ) ^ e = (((m * 2 ^ e.toNat : ℕ) : ℤ) : ℚ) := by
      push_cast
      rw [← zpow_natCast, Int.toNat_of_nonneg he]
    rw [hv] at h
    rw [if_pos he, hv, Int.floor_intCast]
    have hlt : ((m * 2 ^ e.toNat : ℕ) : ℤ) < 2 ^ 63 := by exact_mod_cast h
    have hge2 : -(2 : ℤ) ^ 63 ≤ ((m * 2 ^ e.toNat : ℕ) : ℤ) := by
      have : (0 : ℤ) ≤ ((m * 2 ^ e.toNat : ℕ) : ℤ) := Int.natCast_nonneg _
      have h0 : -(2 : ℤ) ^ 63 ≤ 0 := by norm_num
      omega
    rw [if_pos ⟨hge2, hlt⟩]
  · have hk : (0 : ℤ) ≤ -e := by omega
    have hv : ((m : ℤ) : ℚ) * (2 : ℚ) ^ e = ((m : ℕ) : ℚ) / ((2 ^ (-e).toNat : ℕ) : ℚ) := by
      push_cast
      rw [← zpow_natCast, Int.toNat_of_nonneg hk, zpow_neg, div_eq_mul_inv, inv_inv]
    rw [hv] at h
    rw [if_neg he, hv, Rat.floor_natCast_div_natCast]
    have hfl : ((m / 2 ^ (-e).toNat : ℕ) : ℤ) < 2 ^ 63 := by
      have h3 : (((m / 2 ^ (-e).toNat : ℕ) : ℤ) : ℚ) ≤
          ((m : ℕ) : ℚ) / ((2 ^ (-e).toNat : ℕ) : ℚ) := by
        have := Int.floor_le (((m : ℕ) : ℚ) / ((2 ^ (-e).toNat : ℕ) : ℚ))
        rwa [Rat.floor_natCast_div_natCast] at this
      have h4 : (((m / 2 ^ (-e).toNat : ℕ) : ℤ) : ℚ) < 2 ^ 63 := lt_of_le_of_lt h3 h
      exact_mod_cast h4
    have hge2 : -(2 : ℤ) ^ 63 ≤ ((m / 2 ^ (-e).toNat : ℕ) : ℤ) := by
      have : (0 : ℤ) ≤ ((m / 2 ^ (-e).toNat : ℕ) : ℤ) := Int.natCast_nonneg _
      have h0 : -(2 : ℤ) ^ 63 ≤ 0 := by norm_num
      omega
    rw [if_pos ⟨hge2, hfl⟩]
    rfl

lemma minDuration_rule (L : Std) (data : JObj) :
    (∀ r f, asMap (index data "response") = some r →
      asFloat L (index r "minDuration") = some f → F64.lt (F64.fin false 0 0) f = true →
      minDuration L data = f) ∧
    ((∀ r f, asMap (index data "response") = some r →
      asFloat L (index r "minDuration") = some f → F64.lt (F64.fin false 0 0) f = false) →
      minDuration L data = F64.fin false 1 0) := by
  unfold minDuration
  refine ⟨?_, ?_⟩
  · intro r f hr hfl hlt
    simp [hr, hfl, hlt]
  · intro h
    cases hr : asMap (index data "response") with
    | none => rfl
    | some r =>
      cases hfl : asFloat L (index r "minDuration") with
      | none => simp [hfl]
      | some f => simp [hfl, h r f hr hfl]

lemma costCents_example (L : Std) :
    costCents L (F64.ofDecimal false 1234 2) (F64.fin false 2 0) = 2468 := by
  have hx : F64.ofDecimal false 1234 2 = F64.fin false 6946802425218990 (-49) := by decide
  have h1 : F64.add (F64.mul (F64.mul (F64.fin false 6946802425218990 (-49))
      (F64.fin false 100 0)) (F64.fin false 2 0)) (F64.fin false 1 (-1)) =
      F64.fin false 5428288906330112 (-41) := by decide
  have h2 : F64.fma (F64.mul (F64.fin false 6946802425218990 (-49))
      (F64.fin false 100 0)) (F64.fin false 2 0) (F64.fin false 1 (-1)) =
      F64.fin false 5428288906330112 (-41) := by decide
  unfold costCents mulAdd
  rw [hx]
  cases L.fusesMulAdd
  · simp only [Bool.false_eq_true, if_false, h1]
    simp [F64.toInt64, F64.signed]
  · simp only [if_true, h2]
    simp [F64.toInt64, F64.signed]

/-! ### Rounding error of the `float64` operations -/

lemma bitLengthAux_zero (f : Nat) : bitLengthAux f 0 = 0 := by
  cases f <;> simp [bitLengthAux]

lemma bitLengthAux_spec (f : Nat) : ∀ n : Nat, n ≤ f → 0 < n →
    2 ^ (bitLengthAux f n - 1) ≤ n ∧ n < 2 ^ bitLengthAux f n ∧ 0 < bitLengthAux f n := by
  induction f with
  | zero => intro n h1 h2; omega
  | succ f ih =>
    intro n hn hpos
    have hne : n ≠ 0 := by omega
    have hstep : bitLengthAux (f + 1) n = bitLengthAux f (n / 2) + 1 := by
      rw [bitLengthAux, if_neg hne]
    rw [hstep]
    by_cases h2 : n / 2 = 0
    · rw [h2, bitLengthAux_zero]
      have : n = 1 := by omega
      subst this
      simp
    · have hle : n / 2 ≤ f := by omega
      obtain ⟨h3, h4, h5⟩ := ih (n / 2) hle (by omega)
      refine ⟨?_, ?_, by omega⟩
      · have e1 : bitLengthAux f (n / 2) + 1 - 1 = (bitLengthAux f (n / 2) - 1) + 1 := by omega
        rw [e1, pow_succ]
        omega
      · rw [pow_succ]
        omega

lemma bitLength_spec (n : Nat) (h : 0 < n) :
    2 ^ (bitLength n - 1) ≤ n ∧ n < 2 ^ bitLength n ∧ 0 < bitLength n :=
  bitLengthAux_spec n n (le_refl n) h

lemma F64.round_bounds (m : Nat) (e : Int)
    (hlo : (m : ℚ) * 2 ^ e = 0 ∨ 1 / 2 ^ 200 ≤ (m : ℚ) * 2 ^ e)
    (hhi : (m : ℚ) * 2 ^ e ≤ 2 ^ 200) :
    ∃ m' e', F64.round false m e = F64.fin false m' e' ∧
      (1 - 1 / 2 ^ 53) * ((m : ℚ) * 2 ^ e) ≤ (m' : ℚ) * 2 ^ e' ∧
      (m' : ℚ) * 2 ^ e' ≤ (1 + 1 / 2 ^ 53) * ((m : ℚ) * 2 ^ e) := by
  have h2 : (1 : ℚ) < 2 := by norm_num
  have h2' : (2 : ℚ) ≠ 0 := by norm_num
  have hE : (0 : ℚ) < (2 : ℚ) ^ e := zpow_pos (by norm_num) _
  by_cases hm : m = 0
  · refine ⟨0, 0, by simp [F64.round, hm], ?_, ?_⟩ <;> simp [hm]
  have hmpos : 0 < m := Nat.pos_of_ne_zero hm
  obtain ⟨hL1, hL2, hL3⟩ := bitLength_spec m hmpos
  have hv0 : (0 : ℚ) < (m : ℚ) * 2 ^ e := mul_pos (by exact_mod_cast hmpos) hE
  -- the value lies between 2^(L-1+e) and 2^(L+e)
  have hup : (m : ℚ) * 2 ^ e < (2 : ℚ) ^ ((bitLength m : ℤ) + e) := by
    rw [zpow_add₀ h2', zpow_natCast]
    have : (m : ℚ) < 2 ^ bitLength m := by exact_mod_cast hL2
    exact mul_lt_mul_of_pos_right this hE
  have hdn : (2 : ℚ) ^ ((bitLength m : ℤ) - 1 + e) ≤ (m : ℚ) * 2 ^ e := by
    have e1 : ((bitLength m : ℤ) - 1) = ((bitLength m - 1 : ℕ) : ℤ) := by omega
    rw [zpow_add₀ h2', e1, zpow_natCast]
    have : ((2 : ℚ) ^ (bitLength m - 1)) ≤ (m : ℚ) := by exact_mod_cast hL1
    exact mul_le_mul_of_nonneg_right this hE.le
  have hlo' : (2 : ℚ) ^ (-200 : ℤ) ≤ (m : ℚ) * 2 ^ e := by
    rcases hlo with h | h
    · exact absurd h (ne_of_gt hv0)
    · have : (2 : ℚ) ^ (-200 : ℤ) = 1 / 2 ^ 200 := by
        rw [zpow_neg, zpow_ofNat, one_div]
      rw [this]
      exact h
  have hhi' : (m : ℚ) * 2 ^ e ≤ (2 : ℚ) ^ (200 : ℤ) := by
    have : (2 : ℚ) ^ (200 : ℤ) = 2 ^ 200 := zpow_ofNat 2 200
    rw [this]
    exact hhi
  have hc1 : (-200 : ℤ) < (bitLength m : ℤ) + e :=
    (zpow_lt_zpow_iff_right₀ h2).mp (lt_of_le_of_lt hlo' hup)
  have hc2 : (bitLength m : ℤ) - 1 + e ≤ 200 :=
    (zpow_le_zpow_iff_right₀ h2).mp (le_trans hdn hhi')
  have hmax : max (e + (bitLength m : ℤ) - 53) (-1074) = e + (bitLength m : ℤ) - 53 :=
    max_eq_left (by omega)
  unfold F64.round
  rw [if_neg hm]
  simp only [hmax]
  by_cases hce : e + (bitLength m : ℤ) - 53 ≤ e
  · rw [if_pos hce, if_neg (by omega)]
    refine ⟨_, _, rfl, ?_⟩
    have hk : (((e - (e + (bitLength m : ℤ) - 53)).toNat : ℕ) : ℤ) =
        e - (e + (bitLength m : ℤ) - 53) := Int.toNat_of_nonneg (by omega)
    have hval : ((m * 2 ^ (e - (e + (bitLength m : ℤ) - 53)).toNat : ℕ) : ℚ) *
        2 ^ (e + (bitLength m : ℤ) - 53) = (m : ℚ) * 2 ^ e := by
      push_cast
      rw [mul_assoc, ← zpow_natCast, hk, ← zpow_add₀ h2',
        sub_add_cancel]
    rw [hval]
    have hu : (0 : ℚ) ≤ 1 / 2 ^ 53 * ((m : ℚ) * 2 ^ e) := by positivity
    constructor <;> linarith
  · rw [if_neg hce]
    have hshZ : (((e + (bitLength m : ℤ) - 53 - e).toNat : ℕ) : ℤ) = (bitLength m : ℤ) - 53 := by
      rw [Int.toNat_of_nonneg (by omega)]
      ring
    generalize hshdef : (e + (bitLength m : ℤ) - 53 - e).toNat = sh at hshZ ⊢
    have hsh1 : 1 ≤ sh := by omega
    have hLsh : bitLength m - 1 = (sh - 1) + 53 := by omega
    have hP : 2 ^ sh = 2 * 2 ^ (sh - 1) := by
      have : sh = (sh - 1) + 1 := by omega
      rw [this, pow_succ]
      simp only [Nat.add_sub_cancel]
      ring
    have hH : 2 ^ (sh - 1) * 2 ^ 53 ≤ m := by
      rw [← pow_add, ← hLsh]
      exact hL1
    have hdm := Nat.div_add_mod m (2 ^ sh)
    have hr : m % 2 ^ sh < 2 ^ sh := Nat.mod_lt _ (by positivity)
    have hc : e + (bitLength m : ℤ) - 53 = e + (sh : ℤ) := by omega
    obtain ⟨q1, hq1def, hq1a, hq1b⟩ : ∃ q1 : ℕ,
        (if m % 2 ^ sh > 2 ^ (sh - 1) ∨ m % 2 ^ sh = 2 ^ (sh - 1) ∧ m / 2 ^ sh % 2 = 1 then
          m / 2 ^ sh + 1 else m / 2 ^ sh) = q1 ∧
        2 ^ sh * q1 ≤ m + 2 ^ (sh - 1) ∧ m ≤ 2 ^ sh * q1 + 2 ^ (sh - 1) := by
      refine ⟨_, rfl, ?_⟩
      split_ifs with hup
      · rw [Nat.mul_add, Nat.mul_one]
        constructor <;> omega
      · constructor <;> omega
    rw [hq1def, hc]
    have h2sh : (2 : ℚ) ^ (e + (sh : ℤ)) = 2 ^ sh * 2 ^ e := by
      rw [zpow_add₀ h2', zpow_natCast, mul_comm]
    have hHq : ((2 ^ (sh - 1) : ℕ) : ℚ) ≤ 1 / 2 ^ 53 * (m : ℚ) := by
      have : ((2 ^ (sh - 1) * 2 ^ 53 : ℕ) : ℚ) ≤ (m : ℚ) := by exact_mod_cast hH
      push_cast at this ⊢
      have h53 : (0 : ℚ) < 2 ^ 53 := by positivity
      rw [one_div, inv_mul_eq_div, le_div_iff₀ h53]
      exact this
    have ha : ((2 ^ sh * q1 : ℕ) : ℚ) ≤ (m : ℚ) + ((2 ^ (sh - 1) : ℕ) : ℚ) := by
      exact_mod_cast hq1a
    have hb : (m : ℚ) ≤ ((2 ^ sh * q1 : ℕ) : ℚ) + ((2 ^ (sh - 1) : ℕ) : ℚ) := by
      exact_mod_cast hq1b
    have key1 : (1 - 1 / 2 ^ 53) * (m : ℚ) ≤ ((2 ^ sh * q1 : ℕ) : ℚ) := by linarith
    have key2 : ((2 ^ sh * q1 : ℕ) : ℚ) ≤ (1 + 1 / 2 ^ 53) * (m : ℚ) := by linarith
    have hval : ∀ (q2 : ℕ) (e2 : ℤ), (q2 : ℚ) * 2 ^ e2 = (q1 : ℚ) * 2 ^ (e + (sh : ℤ)) →
        (1 - 1 / 2 ^ 53) * ((m : ℚ) * 2 ^ e) ≤ (q2 : ℚ) * 2 ^ e2 ∧
        (q2 : ℚ) * 2 ^ e2 ≤ (1 + 1 / 2 ^ 53) * ((m : ℚ) * 2 ^ e) := by
      intro q2 e2 h
      have hv : (q2 : ℚ) * 2 ^ e2 = ((2 ^ sh * q1 : ℕ) : ℚ) * 2 ^ e := by
        rw [h, h2sh]
        push_cast
        ring
      rw [hv]
      constructor
      · calc (1 - 1 / 2 ^ 53) * ((m : ℚ) * 2 ^ e)
            = ((1 - 1 / 2 ^ 53) * (m : ℚ)) * 2 ^ e := by ring
          _ ≤ ((2 ^ sh * q1 : ℕ) : ℚ) * 2 ^ e := mul_le_mul_of_nonneg_right key1 hE.le
      · calc ((2 ^ sh * q1 : ℕ) : ℚ) * 2 ^ e
            ≤ ((1 + 1 / 2 ^ 53) * (m : ℚ)) * 2 ^ e := mul_le_mul_of_nonneg_right key2 hE.le
          _ = (1 + 1 / 2 ^ 53) * ((m : ℚ) * 2 ^ e) := by ring
    by_cases hq : q1 = 2 ^ 53
    · rw [if_pos hq, if_pos hq, if_neg (by omega)]
      refine ⟨_, _, rfl, hval _ _ ?_⟩
      rw [hq, zpow_add₀ h2' (e + (sh : ℤ)) 1]
      push_cast
      ring
    · rw [if_neg hq, if_neg hq, if_neg (by omega)]
      exact ⟨_, _, rfl, hval _ _ rfl⟩

lemma F64.mul_bounds (m1 : Nat) (e1 : Int) (m2 : Nat) (e2 : Int)
    (hlo : ((m1 : ℚ) * 2 ^ e1) * ((m2 : ℚ) * 2 ^ e2) = 0 ∨
      1 / 2 ^ 200 ≤ ((m1 : ℚ) * 2 ^ e1) * ((m2 : ℚ) * 2 ^ e2))
    (hhi : ((m1 : ℚ) * 2 ^ e1) * ((m2 : ℚ) * 2 ^ e2) ≤ 2 ^ 200) :
    ∃ m' e', F64.mul (F64.fin false m1 e1) (F64.fin false m2 e2) = F64.fin false m' e' ∧
      (1 - 1 / 2 ^ 53) * (((m1 : ℚ) * 2 ^ e1) * ((m2 : ℚ) * 2 ^ e2)) ≤ (m' : ℚ) * 2 ^ e' ∧
      (m' : ℚ) * 2 ^ e' ≤ (1 + 1 / 2 ^ 53) * (((m1 : ℚ) * 2 ^ e1) * ((m2 : ℚ) * 2 ^ e2)) := by
  have h2' : (2 : ℚ) ≠ 0 := by norm_num
  have hv : ((m1 * m2 : ℕ) : ℚ) * 2 ^ (e1 + e2) =
      ((m1 : ℚ) * 2 ^ e1) * ((m2 : ℚ) * 2 ^ e2) := by
    rw [zpow_add₀ h2']
    push_cast
    ring
  have hmul : F64.mul (F64.fin false m1 e1) (F64.fin false m2 e2) =
      F64.round false (m1 * m2) (e1 + e2) := rfl
  rw [hmul, ← hv]
  rw [← hv] at hlo hhi
  exact F64.round_bounds (m1 * m2) (e1 + e2) hlo hhi

lemma F64.sumExact_bounds (m1 : Nat) (e1 : Int) (m2 : Nat) (e2 : Int)
    (hlo : 1 / 2 ^ 200 ≤ (m1 : ℚ) * 2 ^ e1 + (m2 : ℚ) * 2 ^ e2)
    (hhi : (m1 : ℚ) * 2 ^ e1 + (m2 : ℚ) * 2 ^ e2 ≤ 2 ^ 200) :
    ∃ m' e', F64.sumExact false m1 e1 false m2 e2 = F64.fin false m' e' ∧
      (1 - 1 / 2 ^ 53) * ((m1 : ℚ) * 2 ^ e1 + (m2 : ℚ) * 2 ^ e2) ≤ (m' : ℚ) * 2 ^ e' ∧
      (m' : ℚ) * 2 ^ e' ≤ (1 + 1 / 2 ^ 53) * ((m1 : ℚ) * 2 ^ e1 + (m2 : ℚ) * 2 ^ e2) := by
  have h2' : (2 : ℚ) ≠ 0 := by norm_num
  have hk1 : (((e1 - min e1 e2).toNat : ℕ) : ℤ) = e1 - min e1 e2 :=
    Int.toNat_of_nonneg (by omega)
  have hk2 : (((e2 - min e1 e2).toNat : ℕ) : ℤ) = e2 - min e1 e2 :=
    Int.toNat_of_nonneg (by omega)
  have hs0 : (0 : ℤ) ≤ (m1 : ℤ) * 2 ^ (e1 - min e1 e2).toNat +
      (m2 : ℤ) * 2 ^ (e2 - min e1 e2).toNat := by positivity
  have hsv : (((m1 : ℤ) * 2 ^ (e1 - min e1 e2).toNat +
      (m2 : ℤ) * 2 ^ (e2 - min e1 e2).toNat : ℤ) : ℚ) * 2 ^ (min e1 e2) =
      (m1 : ℚ) * 2 ^ e1 + (m2 : ℚ) * 2 ^ e2 := by
    push_cast
    rw [add_mul, mul_assoc, mul_assoc, ← zpow_natCast, ← zpow_natCast, hk1, hk2,
      ← zpow_add₀ h2', ← zpow_add₀ h2', sub_add_cancel, sub_add_cancel]
  have hpos : (0 : ℚ) < (m1 : ℚ) * 2 ^ e1 + (m2 : ℚ) * 2 ^ e2 :=
    lt_of_lt_of_le (by positivity) hlo
  have hsne : (m1 : ℤ) * 2 ^ (e1 - min e1 e2).toNat +
      (m2 : ℤ) * 2 ^ (e2 - min e1 e2).toNat ≠ 0 := by
    intro h
    rw [h] at hsv
    simp at hsv
    rw [← hsv] at hpos
    exact absurd hpos (lt_irrefl _)
  have hnat : ((((m1 : ℤ) * 2 ^ (e1 - min e1 e2).toNat +
      (m2 : ℤ) * 2 ^ (e2 - min e1 e2).toNat).natAbs : ℕ) : ℚ) * 2 ^ (min e1 e2) =
      (m1 : ℚ) * 2 ^ e1 + (m2 : ℚ) * 2 ^ e2 := by
    rw [← hsv, ← Int.cast_natCast, Int.natAbs_of_nonneg hs0]
  have hsum : F64.sumExact false m1 e1 false m2 e2 =
      F64.round false ((m1 : ℤ) * 2 ^ (e1 - min e1 e2).toNat +
        (m2 : ℤ) * 2 ^ (e2 - min e1 e2).toNat).natAbs (min e1 e2) := by
    unfold F64.sumExact F64.signed
    simp only [Bool.false_eq_true, if_false]
    rw [if_neg hsne]
    have : decide ((m1 : ℤ) * 2 ^ (e1 - min e1 e2).toNat +
        (m2 : ℤ) * 2 ^ (e2 - min e1 e2).toNat < 0) = false := by
      simp only [decide_eq_false_iff_not, not_lt]
      exact hs0
    rw [this]
  rw [hsum, ← hnat]
  rw [← hnat] at hlo hhi
  exact F64.round_bounds _ _ (Or.inr hlo) hhi

lemma F64.val_nonneg_eq (m : Nat) (e : Int) : F64.val false m e = (m : ℚ) * 2 ^ e := by
  simp [F64.val, F64.signed]

/-- The cost computed in `float64` is the exactly rounded cost whenever the exact
product `p * 100 * d` keeps a relative distance of `2^-50` from the rounding
ties. -/
lemma costCents_exact (L : Std) (mp : Nat) (ep : Int) (md : Nat) (ed : Int) (p : ℚ) (K : ℕ)
    (hplo : p = 0 ∨ 1 / 2 ^ 64 ≤ p) (hphi : p ≤ 2 ^ 64)
    (hpar1 : (1 - 1 / 2 ^ 53) * p ≤ (mp : ℚ) * 2 ^ ep)
    (hpar2 : (mp : ℚ) * 2 ^ ep ≤ (1 + 1 / 2 ^ 53) * p)
    (hdlo : 1 / 2 ^ 64 ≤ (md : ℚ) * 2 ^ ed)
    (hK1 : (K : ℚ) - 1 / 2 + ((K : ℚ) + 1) / 2 ^ 50 ≤ p * 100 * ((md : ℚ) * 2 ^ ed))
    (hK2 : p * 100 * ((md : ℚ) * 2 ^ ed) ≤ (K : ℚ) + 1 / 2 - ((K : ℚ) + 1) / 2 ^ 50) :
    costCents L (F64.fin false mp ep) (F64.fin false md ed) = (K : ℤ) ∧
    exactCents p ((md : ℚ) * 2 ^ ed) = (K : ℤ) := by
  have hK0 : (0 : ℚ) ≤ (K : ℚ) := Nat.cast_nonneg K
  have h100 : ((100 : ℕ) : ℚ) * (2 : ℚ) ^ (0 : ℤ) = 100 := by norm_num
  have hhalf : ((1 : ℕ) : ℚ) * (2 : ℚ) ^ (-1 : ℤ) = 1 / 2 := by norm_num
  generalize hvp : (mp : ℚ) * 2 ^ ep = vp at hpar1 hpar2
  generalize hvd : (md : ℚ) * 2 ^ ed = vd at hdlo hK1 hK2 ⊢
  have hp0 : 0 ≤ p := by
    rcases hplo with h | h
    · rw [h]
    · exact le_trans (by positivity) h
  have hvd0 : 0 < vd := lt_of_lt_of_le (by positivity) hdlo
  have hvp0 : 0 ≤ vp := le_trans (mul_nonneg (by norm_num) hp0) hpar1
  -- the exact cost
  have hexact : exactCents p vd = (K : ℤ) := by
    unfold exactCents
    rw [Int.floor_eq_iff]
    push_cast
    constructor <;> linarith [div_nonneg (by linarith : (0 : ℚ) ≤ (K : ℚ) + 1)
      (by positivity : (0 : ℚ) ≤ 2 ^ 50)]
  refine ⟨?_, hexact⟩
  -- first product: priceFloat * 100
  have hx_hi : p * 100 * vd ≤ 2 ^ 49 := by linarith
  have hpvd : p = 0 ∨ 1 / 2 ^ 128 ≤ p * vd := by
    rcases hplo with h | h
    · exact Or.inl h
    · right
      have := mul_le_mul h hdlo (by positivity) hp0
      calc (1 : ℚ) / 2 ^ 128 = 1 / 2 ^ 64 * (1 / 2 ^ 64) := by norm_num
        _ ≤ p * vd := this
  obtain ⟨ma, ea, hEa, hA1, hA2⟩ := F64.mul_bounds mp ep 100 0
    (by
      rw [hvp, h100]
      rcases hplo with h | h
      · left
        have : vp = 0 := by rw [h] at hpar1 hpar2; linarith
        rw [this]; ring
      · right
        linarith)
    (by rw [hvp, h100]; linarith)
  rw [hvp, h100] at hA1 hA2
  generalize hva : (ma : ℚ) * 2 ^ ea = va at hA1 hA2
  have hva0 : 0 ≤ va := le_trans (mul_nonneg (by norm_num) (mul_nonneg hvp0 (by norm_num))) hA1
  -- bounds on the exact second product
  have hy1 : (1 - 1 / 2 ^ 53) * (p * 100 * vd) ≤ vp * 100 * vd := by
    have := mul_le_mul_of_nonneg_right hpar1 (by positivity : (0 : ℚ) ≤ 100 * vd)
    calc (1 - 1 / 2 ^ 53) * (p * 100 * vd) = (1 - 1 / 2 ^ 53) * p * (100 * vd) := by ring
      _ ≤ vp * (100 * vd) := this
      _ = vp * 100 * vd := by ring
  have hy2 : vp * 100 * vd ≤ (1 + 1 / 2 ^ 53) * (p * 100 * vd) := by
    have := mul_le_mul_of_nonneg_right hpar2 (by positivity : (0 : ℚ) ≤ 100 * vd)
    calc vp * 100 * vd = vp * (100 * vd) := by ring
      _ ≤ (1 + 1 / 2 ^ 53) * p * (100 * vd) := this
      _ = (1 + 1 / 2 ^ 53) * (p * 100 * vd) := by ring
  have hz1 : (1 - 1 / 2 ^ 53) * (vp * 100 * vd) ≤ va * vd := by
    have := mul_le_mul_of_nonneg_right hA1 hvd0.le
    calc (1 - 1 / 2 ^ 53) * (vp * 100 * vd) = (1 - 1 / 2 ^ 53) * (vp * 100) * vd := by ring
      _ ≤ va * vd := this
  have hz2 : va * vd ≤ (1 + 1 / 2 ^ 53) * (vp * 100 * vd) := by
    have := mul_le_mul_of_nonneg_right hA2 hvd0.le
    calc va * vd ≤ (1 + 1 / 2 ^ 53) * (vp * 100) * vd := this
      _ = (1 + 1 / 2 ^ 53) * (vp * 100 * vd) := by ring
  generalize hx : p * 100 * vd = x at hK1 hK2 hx_hi hy1 hy2
  generalize hy : vp * 100 * vd = y at hy1 hy2 hz1 hz2
  generalize hz : va * vd = z at hz1 hz2
  have hx0 : 0 ≤ x := by rw [← hx]; positivity
  have hz0 : 0 ≤ z := by rw [← hz]; positivity
  have hzlo : z = 0 ∨ 1 / 2 ^ 200 ≤ z := by
    rcases hpvd with h | h
    · left
      have hvp' : vp = 0 := by rw [h] at hpar1 hpar2; linarith
      have hva' : va = 0 := by rw [hvp'] at hA1 hA2; linarith
      rw [← hz, hva']; ring
    · right
      have hxlo : 1 / 2 ^ 128 ≤ x := by
        rw [← hx]
        have : p * 100 * vd = 100 * (p * vd) := by ring
        rw [this]
        linarith
      linarith
  have hzhi : z ≤ 2 ^ 200 := by linarith
  -- the final value lies in [K, K+1)
  have hfinal : ∀ (ms : ℕ) (es : ℤ) (w : ℚ), (1 - 1 / 2 ^ 53) * z ≤ w →
      w ≤ (1 + 1 / 2 ^ 53) * z →
      (1 - 1 / 2 ^ 53) * (w + 1 / 2) ≤ (ms : ℚ) * 2 ^ es →
      (ms : ℚ) * 2 ^ es ≤ (1 + 1 / 2 ^ 53) * (w + 1 / 2) →
      F64.toInt64 L (F64.fin false ms es) = (K : ℤ) := by
    intro ms es w hw1 hw2 hs1 hs2
    have hlt : (ms : ℚ) * 2 ^ es < (K : ℚ) + 1 := by linarith
    have hge : (K : ℚ) ≤ (ms : ℚ) * 2 ^ es := by linarith
    rw [F64.toInt64_eq_floor L ms es (by rw [F64.val_nonneg_eq]; linarith),
      F64.val_nonneg_eq, Int.floor_eq_iff]
    push_cast
    exact ⟨hge, hlt⟩
  unfold costCents mulAdd
  rw [hEa]
  cases L.fusesMulAdd
  · -- two roundings
    simp only [Bool.false_eq_true, if_false]
    obtain ⟨mb, eb, hEb, hB1, hB2⟩ := F64.mul_bounds ma ea md ed
      (by rw [hva, hvd, hz]; exact hzlo) (by rw [hva, hvd, hz]; exact hzhi)
    rw [hva, hvd, hz] at hB1 hB2
    rw [hEb]
    generalize hvb : (mb : ℚ) * 2 ^ eb = vb at hB1 hB2
    have hvb0 : 0 ≤ vb := le_trans (mul_nonneg (by norm_num) hz0) hB1
    obtain ⟨ms, es, hEs, hS1, hS2⟩ := F64.sumExact_bounds mb eb 1 (-1)
      (by rw [hvb, hhalf]; linarith) (by rw [hvb, hhalf]; linarith)
    rw [hvb, hhalf] at hS1 hS2
    have hadd : F64.add (F64.fin false mb eb) (F64.fin false 1 (-1)) =
        F64.sumExact false mb eb false 1 (-1) := rfl
    rw [hadd, hEs]
    exact hfinal ms es vb hB1 hB2 hS1 hS2
  · -- one rounding
    simp only [if_true]
    have hzv : ((ma * md : ℕ) : ℚ) * 2 ^ (ea + ed) = z := by
      rw [zpow_add₀ (by norm_num : (2 : ℚ) ≠ 0), ← hz, ← hva, ← hvd]
      push_cast
      ring
    obtain ⟨ms, es, hEs, hS1, hS2⟩ := F64.sumExact_bounds (ma * md) (ea + ed) 1 (-1)
      (by rw [hzv, hhalf]; linarith) (by rw [hzv, hhalf]; linarith)
    rw [hzv, hhalf] at hS1 hS2
    have hfma : F64.fma (F64.fin false ma ea) (F64.fin false md ed) (F64.fin false 1 (-1)) =
        F64.sumExact false (ma * md) (ea + ed) false 1 (-1) := rfl
    rw [hfma, hEs]
    exact hfinal ms es z (by linarith) (by linarith) hS1 hS2

set_option maxRecDepth 8192 in
/-- C3, as stated, fails: the cost is computed in `float64`, not exactly. For
the price `1.005` without `minDuration` the exact formula gives 101 but the
cost submitted is 100 (fused or not), because the nearest `float64` to 1.005
lies below it; for the price `0.004999999999999999` the exact formula gives 0,
for the decimal and for its nearest `float64` alike, but the cost submitted is
1, because adding 0.5 rounds up to 1. -/
theorem registration_cost_counterexample :
    (runRegister refStd (fun _ _ => Except.ok (pricedResponse "1.005")) "clau.de").requests =
      [checkRequest "clau.de", createRequest "clau.de" 100] ∧
    (runRegister refStdFused (fun _ _ => Except.ok (pricedResponse "1.005")) "clau.de").requests =
      [checkRequest "clau.de", createRequest "clau.de" 100] ∧
    exactCents (1005 / 1000) 1 = 101 ∧
    (runRegister refStd (fun _ _ => Except.ok (pricedResponse "0.004999999999999999"))
        "clau.de").requests =
      [checkRequest "clau.de", createRequest "clau.de" 1] ∧
    (runRegister refStdFused (fun _ _ => Except.ok (pricedResponse "0.004999999999999999"))
        "clau.de").requests =
      [checkRequest "clau.de", createRequest "clau.de" 1] ∧
    exactCents (4999999999999999 / 10 ^ 18) 1 = 0 ∧
    refStd.parseFloat "0.004999999999999999" = (F64.fin false 5764607523034234 (-60), true) ∧
    exactCents (F64.val false 5764607523034234 (-60)) 1 = 0 := by
  refine ⟨rfl, rfl, ?_, rfl, rfl, ?_, by decide, ?_⟩
  · unfold exactCents
    rw [Int.floor_eq_iff]
    norm_num
  · unfold exactCents
    rw [Int.floor_eq_iff]
    norm_num
  · unfold exactCents F64.val F64.signed
    rw [Int.floor_eq_iff]
    norm_num

/-- C3, amended: for an available domain whose register price is a plain
decimal numeral denoting `p` (zero, or between `2^-64` and `2^64`), parsed by
`ParseFloat` to a `float64` within relative error `2^-53` of `p` (its nearest
one), and a minimum duration `d` of at least `2^-64` (`response.minDuration`
when the check response supplies a value greater than 0, and 1 otherwise), the
cost `runRegister` submits equals `floor(p * 100 * d + 1/2)` whenever
`p * 100 * d` keeps a distance of `(K + 1) / 2^50` from the two rounding ties
`K - 1/2` and `K + 1/2` around its nearest integer `K`, fused or not; in
particular for every price with at most two decimals and every whole-number
duration whose cost in cents is below `2^49 - 1`. For the price `12.34` and
`minDuration` 2 the cost is 2468. -/
theorem registration_cost_exact (L : Std) (post : String → JObj → Except String JObj)
    (domain : String) (data : JObj)
    (hp : post ("/domain/checkDomain/" ++ domain) [] = Except.ok data)
    (ha : (parseCheckResponse L data).1 = true) :
    (∀ (n k mp md K : ℕ) (ep ed : ℤ),
      decimalDigits (parseCheckResponse L data).2.1 = some (n, k) →
      L.parseFloat (parseCheckResponse L data).2.1 = (F64.fin false mp ep, true) →
      (1 - 1 / 2 ^ 53) * ((n : ℚ) / 10 ^ k) ≤ (mp : ℚ) * 2 ^ ep →
      (mp : ℚ) * 2 ^ ep ≤ (1 + 1 / 2 ^ 53) * ((n : ℚ) / 10 ^ k) →
      minDuration L data = F64.fin false md ed →
      ((n : ℚ) / 10 ^ k = 0 ∨ 1 / 2 ^ 64 ≤ (n : ℚ) / 10 ^ k) →
      (n : ℚ) / 10 ^ k ≤ 2 ^ 64 →
      1 / 2 ^ 64 ≤ (md : ℚ) * 2 ^ ed →
      (K : ℚ) - 1 / 2 + ((K : ℚ) + 1) / 2 ^ 50 ≤ (n : ℚ) / 10 ^ k * 100 * ((md : ℚ) * 2 ^ ed) →
      (n : ℚ) / 10 ^ k * 100 * ((md : ℚ) * 2 ^ ed) ≤ (K : ℚ) + 1 / 2 - ((K : ℚ) + 1) / 2 ^ 50 →
      (runRegister L post domain).requests =
        [checkRequest domain,
          createRequest domain (exactCents ((n : ℚ) / 10 ^ k) ((md : ℚ) * 2 ^ ed))] ∧
      exactCents ((n : ℚ) / 10 ^ k) ((md : ℚ) * 2 ^ ed) = (K : ℤ)) ∧
    (∀ (n k dn mp md : ℕ) (ep ed : ℤ), k ≤ 2 →
      decimalDigits (parseCheckResponse L data).2.1 = some (n, k) →
      L.parseFloat (parseCheckResponse L data).2.1 = (F64.fin false mp ep, true) →
      (1 - 1 / 2 ^ 53) * ((n : ℚ) / 10 ^ k) ≤ (mp : ℚ) * 2 ^ ep →
      (mp : ℚ) * 2 ^ ep ≤ (1 + 1 / 2 ^ 53) * ((n : ℚ) / 10 ^ k) →
      minDuration L data = F64.fin false md ed →
      (md : ℚ) * 2 ^ ed = (dn : ℚ) → 1 ≤ dn →
      n * 10 ^ (2 - k) * dn + 1 ≤ 2 ^ 49 →
      (runRegister L post domain).requests =
        [checkRequest domain, createRequest domain ((n * 10 ^ (2 - k) * dn : ℕ) : ℤ)] ∧
      exactCents ((n : ℚ) / 10 ^ k) (dn : ℚ) = ((n * 10 ^ (2 - k) * dn : ℕ) : ℤ)) ∧
    (∀ r f, asMap (index data "response") = some r →
      asFloat L (index r "minDuration") = some f → F64.lt (F64.fin false 0 0) f = true →
      minDuration L data = f) ∧
    ((∀ r f, asMap (index data "response") = some r →
      asFloat L (index r "minDuration") = some f → F64.lt (F64.fin false 0 0) f = false) →
      minDuration L data = F64.fin false 1 0) ∧
    ((parseCheckResponse L data).2.1 = "12.34" →
      L.parseFloat "12.34" = (F64.ofDecimal false 1234 2, true) →
      minDuration L data = F64.fin false 2 0 →
      (runRegister L post domain).requests =
        [checkRequest domain, createRequest domain 2468]) ∧
    (decimalDigits "12.34" = some (1234, 2) ∧ decimalDigits "1.005" = some (1005, 3) ∧
      decimalDigits "7" = some (7, 0) ∧ decimalDigits "0.5" = some (5, 1) ∧
      decimalDigits "-" = none ∧ decimalDigits "NaN" = none ∧ decimalDigits "1e3" = none) := by
  have general : ∀ (n k mp md K : ℕ) (ep ed : ℤ),
      L.parseFloat (parseCheckResponse L data).2.1 = (F64.fin false mp ep, true) →
      (1 - 1 / 2 ^ 53) * ((n : ℚ) / 10 ^ k) ≤ (mp : ℚ) * 2 ^ ep →
      (mp : ℚ) * 2 ^ ep ≤ (1 + 1 / 2 ^ 53) * ((n : ℚ) / 10 ^ k) →
      minDuration L data = F64.fin false md ed →
      ((n : ℚ) / 10 ^ k = 0 ∨ 1 / 2 ^ 64 ≤ (n : ℚ) / 10 ^ k) →
      (n : ℚ) / 10 ^ k ≤ 2 ^ 64 →
      1 / 2 ^ 64 ≤ (md : ℚ) * 2 ^ ed →
      (K : ℚ) - 1 / 2 + ((K : ℚ) + 1) / 2 ^ 50 ≤ (n : ℚ) / 10 ^ k * 100 * ((md : ℚ) * 2 ^ ed) →
      (n : ℚ) / 10 ^ k * 100 * ((md : ℚ) * 2 ^ ed) ≤ (K : ℚ) + 1 / 2 - ((K : ℚ) + 1) / 2 ^ 50 →
      (runRegister L post domain).requests =
        [checkRequest domain,
          createRequest domain (exactCents ((n : ℚ) / 10 ^ k) ((md : ℚ) * 2 ^ ed))] ∧
      exactCents ((n : ℚ) / 10 ^ k) ((md : ℚ) * 2 ^ ed) = (K : ℤ) := by
    intro n k mp md K ep ed hparse h1 h2 hd hplo hphi hdlo hK1 hK2
    have hf : (L.parseFloat (parseCheckResponse L data).2.1).2 = true := by rw [hparse]
    have hreq := runRegister_sends_create L post domain data hp ha hf
    obtain ⟨hc, hx⟩ := costCents_exact L mp ep md ed ((n : ℚ) / 10 ^ k) K hplo hphi h1 h2
      hdlo hK1 hK2
    rw [hreq, hparse, hd, hc, hx]
    exact ⟨rfl, rfl⟩
  refine ⟨fun n k mp md K ep ed _ => general n k mp md K ep ed, ?_, (minDuration_rule L data).1,
    (minDuration_rule L data).2, ?_, by decide⟩
  · intro n k dn mp md ep ed hk _ hparse h1 h2 hd hdn hdn1 hbound
    have hN : (n : ℚ) / 10 ^ k * 100 * (dn : ℚ) = ((n * 10 ^ (2 - k) * dn : ℕ) : ℚ) := by
      interval_cases k <;> push_cast <;> ring
    have hdq : (1 : ℚ) ≤ (dn : ℚ) := by exact_mod_cast hdn1
    have hbq : ((n * 10 ^ (2 - k) * dn : ℕ) : ℚ) + 1 ≤ 2 ^ 49 := by exact_mod_cast hbound
    have hk10 : (0 : ℚ) < 10 ^ k := by positivity
    have hk100 : (10 : ℚ) ^ k ≤ 100 := by
      interval_cases k <;> norm_num
    have hplo : (n : ℚ) / 10 ^ k = 0 ∨ 1 / 2 ^ 64 ≤ (n : ℚ) / 10 ^ k := by
      rcases Nat.eq_zero_or_pos n with h0 | h0
      · left; rw [h0]; simp
      · right
        have hn1 : (1 : ℚ) ≤ (n : ℚ) := by exact_mod_cast h0
        rw [le_div_iff₀ hk10]
        calc 1 / 2 ^ 64 * (10 : ℚ) ^ k ≤ 1 / 2 ^ 64 * 100 := by
              apply mul_le_mul_of_nonneg_left hk100; positivity
          _ ≤ 1 := by norm_num
          _ ≤ (n : ℚ) := hn1
    have hpn : (0 : ℚ) ≤ (n : ℚ) / 10 ^ k := by positivity
    have hphi : (n : ℚ) / 10 ^ k ≤ 2 ^ 64 := by
      have h3 : (n : ℚ) / 10 ^ k * 100 * 1 ≤ (n : ℚ) / 10 ^ k * 100 * (dn : ℚ) :=
        mul_le_mul_of_nonneg_left hdq (by positivity)
      rw [hN] at h3
      linarith
    have hres := general n k mp md (n * 10 ^ (2 - k) * dn) ep ed hparse h1 h2 hd hplo hphi
      (by rw [hdn]; linarith) (by rw [hdn, hN]; linarith) (by rw [hdn, hN]; linarith)
    rw [hdn] at hres
    obtain ⟨hr1, hr2⟩ := hres
    rw [hr2] at hr1
    exact ⟨hr1, hr2⟩
  · intro hprice hparse hd
    have hf : (L.parseFloat (parseCheckResponse L data).2.1).2 = true := by
      rw [hprice, hparse]
    rw [runRegister_sends_create L post domain data hp ha hf, hprice, hparse, hd,
      costCents_example]

/-- C3, instance: for the response of `TestParseCheckResponse` with
`minDuration` 2 the price `12.34` denotes 1234/100, its nearest `float64` is
`6946802425218990 * 2^-49`, and the create request carries the cost
`1234 * 2 = 2468`. -/
theorem registration_cost_exact_witness :
    (runRegister refStd (fun _ _ => Except.ok twoYearResponse) "clau.de").requests =
      [checkRequest "clau.de", createRequest "clau.de" 2468] ∧
    exactCents ((1234 : ℕ) / 10 ^ 2) ((2 : ℕ) : ℚ) = 2468 :=
  (registration_cost_exact refStd (fun _ _ => Except.ok twoYearResponse) "clau.de"
    twoYearResponse rfl rfl).2.1 1234 2 2 6946802425218990 2 (-49) 0 (le_refl 2)
    (by decide) (by decide) (by norm_num) (by norm_num) rfl (by norm_num) (by decide)
    (by norm_num)

end Porkctl
